import Mathlib

/-! # dbtui: the Miller-column navigation model

A shallow embedding of `internal/model/model.go` (the column stack and its
transitions), of `internal/ui/miller.go` (the `Column` type and the
rendering), and of `internal/filesystem/filesystem.go` (the `Entry` type,
`ReadDir` and `FormatSize`).

Modelling decisions.

* Go slices are Lean lists.  The model value is threaded through `Update`
  by value and the old value is dropped, so no two live slices share a
  backing array and `append(s[:k], x)` is `s.take k ++ [x]`.
* `Cursor`, `Scroll`, `activeCol` and `colIdx` are Go `int`s that hold
  indices.  The source initialises them to `0` and decrements them only
  under a `> 0` guard, so they are natural numbers here; every subtraction
  in the transitions sits under the same guard as in the source, so none
  truncates.  `width` and `height` come from the terminal and stay integers.
* A guard `if i >= len(xs) { return }` followed by `xs[i]` is a match on
  `xs[i]?`.  The one slice expression of the transitions that has no guard,
  `m.columns[:m.activeCol+1]` in `navigateUp`, is checked against the length
  and the transition yields `none` when it is out of range.
* `filesystem.ReadDir` reaches the operating system; the transitions take
  the directory reader as a parameter `rd`.  An `error` value is modelled by
  its message, `nil` by `none`.
* The standard library (`os.ReadDir`, `filepath.Join`, `sort.Slice`), the
  lipgloss renderers and the `%.1f` formatting are parameters of the
  functions that call them.
-/

namespace Dbtui

/-- One filesystem object (`filesystem.Entry`). -/
structure Entry where
  Name : String
  Path : String
  IsDir : Bool
  Size : Int
  ModTime : Int
  Mode : Nat
  deriving DecidableEq, Repr

/-- One column of the Miller view (`ui.Column`). -/
structure Column where
  Path : String
  Entries : List Entry
  Cursor : Nat
  Scroll : Nat
  deriving DecidableEq, Repr

/-- The application state (`model.Model`). -/
structure Model where
  rootPath : String
  columns : List Column
  activeCol : Nat
  width : Int
  height : Int
  err : Option String
  pathParts : List String
  quitting : Bool
  deriving DecidableEq, Repr

/-- A directory reader: the entries of a path, or an error message. -/
abbrev Reader := String → Except String (List Entry)

/-- The constant `visibleItems` of `moveCursorDown`. -/
def visibleItems : Nat := 20

/-- Source `loadColumn` (model.go 120-142): read `path` and install it as
column `colIdx`, dropping the columns after it; on a read error only `err`
is assigned. -/
def loadColumn (rd : Reader) (m : Model) (path : String) (colIdx : Nat) : Model :=
  match rd path with
  | .error e => { m with err := some e }
  | .ok entries =>
    let col : Column := { Path := path, Entries := entries, Cursor := 0, Scroll := 0 }
    if colIdx ≥ m.columns.length then
      { m with columns := m.columns ++ [col] }
    else
      { m with columns := m.columns.take colIdx ++ [col] }

/-- Source `updatePreview` (model.go 240-263): refresh the column right of the
active one. -/
def updatePreview (rd : Reader) (m : Model) : Model :=
  match m.columns[m.activeCol]? with
  | none => m
  | some col =>
    match col.Entries[col.Cursor]? with
    | none => m
    | some entry =>
      if !entry.IsDir then
        if m.activeCol + 1 < m.columns.length then
          { m with columns := m.columns.take (m.activeCol + 1) }
        else m
      else
        loadColumn rd m entry.Path (m.activeCol + 1)

/-- Source `moveCursorUp` (model.go 145-162). -/
def moveCursorUp (rd : Reader) (m : Model) : Model :=
  match m.columns[m.activeCol]? with
  | none => m
  | some col =>
    if col.Cursor > 0 then
      let c1 : Column := { col with Cursor := col.Cursor - 1 }
      let c2 : Column := if c1.Cursor < c1.Scroll then { c1 with Scroll := c1.Cursor } else c1
      updatePreview rd { m with columns := m.columns.set m.activeCol c2 }
    else m

/-- Source `moveCursorDown` (model.go 165-183).  The comparison with
`len(col.Entries)-1` is made in the integers, as in Go, where it is `-1` for
an empty column. -/
def moveCursorDown (rd : Reader) (m : Model) : Model :=
  match m.columns[m.activeCol]? with
  | none => m
  | some col =>
    if (col.Cursor : Int) < (col.Entries.length : Int) - 1 then
      let c1 : Column := { col with Cursor := col.Cursor + 1 }
      let c2 : Column :=
        if c1.Cursor ≥ c1.Scroll + visibleItems then
          { c1 with Scroll := c1.Cursor - visibleItems + 1 }
        else c1
      updatePreview rd { m with columns := m.columns.set m.activeCol c2 }
    else m

/-- Source `navigateUp` (model.go 186-202): `none` when the slice expression
`m.columns[:m.activeCol+1]` is out of range. -/
def navigateUp (rd : Reader) (m : Model) : Option Model :=
  if m.activeCol > 0 then
    let a := m.activeCol - 1
    if a + 1 ≤ m.columns.length then
      let m1 : Model := { m with activeCol := a, columns := m.columns.take (a + 1) }
      let m2 : Model :=
        if m1.pathParts.length > 0 then
          { m1 with pathParts := m1.pathParts.take (m1.pathParts.length - 1) }
        else m1
      some (updatePreview rd m2)
    else none
  else some m

/-- Source `navigateDown` (model.go 205-237).  The increment of `activeCol` and
the append to `pathParts` follow `loadColumn` whether or not it failed. -/
def navigateDown (rd : Reader) (m : Model) : Model :=
  match m.columns[m.activeCol]? with
  | none => m
  | some col =>
    match col.Entries[col.Cursor]? with
    | none => m
    | some entry =>
      if !entry.IsDir then m
      else
        let m1 : Model :=
          if m.activeCol + 1 < m.columns.length then
            { m with activeCol := m.activeCol + 1 }
          else
            let l := loadColumn rd m entry.Path (m.activeCol + 1)
            { l with activeCol := l.activeCol + 1 }
        updatePreview rd { m1 with pathParts := m1.pathParts ++ [entry.Name] }

/-- Source `NewModel` (model.go 26-38): only the root directory is loaded. -/
def NewModel (rd : Reader) (rootPath : String) : Model :=
  loadColumn rd
    { rootPath := rootPath, columns := [], activeCol := 0, width := 0, height := 0,
      err := none, pathParts := [], quitting := false }
    rootPath 0

/-- The messages `Update` reacts to. -/
inductive Msg where
  | WindowSizeMsg (Width Height : Int)
  | KeyMsg (key : String)
  deriving DecidableEq, Repr

/-- Source `Update` (model.go 46-73): the new model and whether the quit
command was issued. -/
def Update (rd : Reader) (m : Model) : Msg → Option (Model × Bool)
  | .WindowSizeMsg w h => some ({ m with width := w, height := h }, false)
  | .KeyMsg key =>
    if key = "ctrl+c" ∨ key = "q" ∨ key = "esc" then some ({ m with quitting := true }, true)
    else if key = "up" ∨ key = "k" then some (moveCursorUp rd m, false)
    else if key = "down" ∨ key = "j" then some (moveCursorDown rd m, false)
    else if key = "left" ∨ key = "h" then (navigateUp rd m).map (fun x => (x, false))
    else if key = "right" ∨ key = "l" ∨ key = "enter" then some (navigateDown rd m, false)
    else some (m, false)

/-- Source `View` (model.go 76-117); `render` stands for the lipgloss layout of
lines 89 to 116. -/
def View (render : Model → String) (m : Model) : String :=
  if m.quitting then "Goodbye!\n"
  else
    match m.err with
    | some e => "Error: " ++ e ++ "\nPress q to quit.\n"
    | none =>
      if m.width = 0 ∨ m.height = 0 then "Loading..."
      else render m

/-- The four navigation events. -/
inductive Event where
  | cursorUp
  | cursorDown
  | descend
  | ascend
  deriving DecidableEq, Repr

/-- One navigation event, as dispatched by `Update`. -/
def step (rd : Reader) (ev : Event) (m : Model) : Option Model :=
  match ev with
  | .cursorUp => some (moveCursorUp rd m)
  | .cursorDown => some (moveCursorDown rd m)
  | .descend => some (navigateDown rd m)
  | .ascend => navigateUp rd m

/-- Run a list of events, each with the reader answering at that moment. -/
def run : List (Reader × Event) → Model → Option Model
  | [], m => some m
  | (rd, ev) :: rest, m => (step rd ev m).bind (run rest)

/-- States reachable from `NewModel` by navigation events. -/
inductive Reachable : Model → Prop where
  | init (rd : Reader) (rootPath : String) : Reachable (NewModel rd rootPath)
  | next {m m2 : Model} (rd : Reader) (ev : Event) :
      Reachable m → step rd ev m = some m2 → Reachable m2

/-- The entry under the cursor of the active column, if there is one. -/
def selected (m : Model) : Option Entry :=
  match m.columns[m.activeCol]? with
  | none => none
  | some col => col.Entries[col.Cursor]?

/-- The active column after a cursor-up that moves (lines 152 to 157). -/
def cursorUpCol (col : Column) : Column :=
  let c1 : Column := { col with Cursor := col.Cursor - 1 }
  if c1.Cursor < c1.Scroll then { c1 with Scroll := c1.Cursor } else c1

/-- The active column after a cursor-down that moves (lines 172 to 178). -/
def cursorDownCol (col : Column) : Column :=
  let c1 : Column := { col with Cursor := col.Cursor + 1 }
  if c1.Cursor ≥ c1.Scroll + visibleItems then
    { c1 with Scroll := c1.Cursor - visibleItems + 1 }
  else c1

/-- The cursor and scroll invariant of one column. -/
def ColOK (c : Column) : Prop :=
  (c.Cursor < c.Entries.length ∨ c.Cursor = 0) ∧
    c.Scroll ≤ c.Cursor ∧ c.Cursor < c.Scroll + visibleItems

/-- Column `i + 1`, when present, lists the directory selected in column `i`. -/
def Linked (cols : List Column) (i : Nat) : Prop :=
  ∀ nxt, cols[i + 1]? = some nxt →
    ∃ c e, cols[i]? = some c ∧ c.Entries[c.Cursor]? = some e ∧
      nxt.Path = e.Path ∧ e.IsDir = true

/-! ## Concrete data for the examples -/

/-- An entry with only the fields the transitions look at filled in. -/
def mkEntry (name path : String) (isDir : Bool) : Entry :=
  { Name := name, Path := path, IsDir := isDir, Size := 0, ModTime := 0, Mode := 0 }

/-- The listing of the example root `/r`: two directories and a file. -/
def demoRoot : List Entry :=
  [mkEntry "a" "/r/a" true, mkEntry "b" "/r/b" true, mkEntry "c.txt" "/r/c.txt" false]

/-- The listing of the example directory `/r/a`. -/
def demoA : List Entry := [mkEntry "x.txt" "/r/a/x.txt" false]

/-- An example reader: `/r` and `/r/a` are readable, every other path fails. -/
def rdDemo : Reader := fun p =>
  if p = "/r" then .ok demoRoot
  else if p = "/r/a" then .ok demoA
  else .error "denied"

/-- The example state at startup. -/
def demoInit : Model := NewModel rdDemo "/r"

/-- The example state after down, up, down, down: the cursor is on `c.txt`. -/
def demoFile : Model :=
  moveCursorDown rdDemo (moveCursorDown rdDemo (moveCursorUp rdDemo
    (moveCursorDown rdDemo demoInit)))

/-- The example state after down, up, down, descend: the preview of `a` was
loaded, the read of `b` failed, and descend entered the stale column. -/
def demoStale : Model :=
  navigateDown rdDemo (moveCursorDown rdDemo (moveCursorUp rdDemo
    (moveCursorDown rdDemo demoInit)))

/-- The example state after descend from startup: inside `/r/a`. -/
def demoIn : Model := navigateDown rdDemo demoInit

/-- An example reader whose root `/q` holds one directory that cannot be read. -/
def rdDenied : Reader := fun p =>
  if p = "/q" then .ok [mkEntry "b" "/q/b" true]
  else .error "denied"

/-- The example state at startup on `/q`: the cursor is on the unreadable `b`. -/
def demoDenied : Model := NewModel rdDenied "/q"

/-- The example state after one cursor-down from startup: the cursor is on `b`. -/
def demoOnB : Model := moveCursorDown rdDemo demoInit

/-- The example state after down, up from startup: the cursor is on `a` and
the preview of `a` is loaded. -/
def demoPreview : Model := moveCursorUp rdDemo demoOnB

/-! ## The transitions with every index and slice expression checked

The functions below follow the source statement by statement and keep each
guard apart from the index or slice expression it protects; an expression
that is out of range yields `none`.  A slice `xs[:k]` is checked against the
length (Go checks it against the capacity, which is at least the length). -/

/-- Go `xs[i]`: `none` when `i` is out of range. -/
def indexAt {α : Type} (xs : List α) (i : Nat) : Option α := xs[i]?

/-- Go `xs[:k]`: `none` when `k` is out of range. -/
def sliceTo {α : Type} (xs : List α) (k : Nat) : Option (List α) :=
  if k ≤ xs.length then some (xs.take k) else none

/-- Source `loadColumn` with the slice `m.columns[:colIdx]` checked. -/
def loadColumnChecked (rd : Reader) (m : Model) (path : String) (colIdx : Nat) :
    Option Model :=
  match rd path with
  | .error e => some { m with err := some e }
  | .ok entries =>
    let col : Column := { Path := path, Entries := entries, Cursor := 0, Scroll := 0 }
    if colIdx ≥ m.columns.length then
      some { m with columns := m.columns ++ [col] }
    else
      (sliceTo m.columns colIdx).map (fun cs => { m with columns := cs ++ [col] })

/-- Source `updatePreview` with `m.columns[m.activeCol]`, `col.Entries[col.Cursor]`
and `m.columns[:m.activeCol+1]` checked. -/
def updatePreviewChecked (rd : Reader) (m : Model) : Option Model :=
  if m.activeCol ≥ m.columns.length then some m
  else
    (indexAt m.columns m.activeCol).bind (fun col =>
      if col.Cursor ≥ col.Entries.length then some m
      else
        (indexAt col.Entries col.Cursor).bind (fun entry =>
          if !entry.IsDir then
            if m.activeCol + 1 < m.columns.length then
              (sliceTo m.columns (m.activeCol + 1)).map (fun cs => { m with columns := cs })
            else some m
          else
            loadColumnChecked rd m entry.Path (m.activeCol + 1)))

/-- Source `moveCursorUp` with `m.columns[m.activeCol]` checked. -/
def moveCursorUpChecked (rd : Reader) (m : Model) : Option Model :=
  if m.activeCol ≥ m.columns.length then some m
  else
    (indexAt m.columns m.activeCol).bind (fun col =>
      if col.Cursor > 0 then
        updatePreviewChecked rd
          { m with columns := m.columns.set m.activeCol (cursorUpCol col) }
      else some m)

/-- Source `moveCursorDown` with `m.columns[m.activeCol]` checked. -/
def moveCursorDownChecked (rd : Reader) (m : Model) : Option Model :=
  if m.activeCol ≥ m.columns.length then some m
  else
    (indexAt m.columns m.activeCol).bind (fun col =>
      if (col.Cursor : Int) < (col.Entries.length : Int) - 1 then
        updatePreviewChecked rd
          { m with columns := m.columns.set m.activeCol (cursorDownCol col) }
      else some m)

/-- Source `navigateUp` with `m.columns[:m.activeCol+1]` and
`m.pathParts[:len(m.pathParts)-1]` checked. -/
def navigateUpChecked (rd : Reader) (m : Model) : Option Model :=
  if m.activeCol > 0 then
    let a := m.activeCol - 1
    (sliceTo m.columns (a + 1)).bind (fun cs =>
      let m1 : Model := { m with activeCol := a, columns := cs }
      if m1.pathParts.length > 0 then
        (sliceTo m1.pathParts (m1.pathParts.length - 1)).bind (fun ps =>
          updatePreviewChecked rd { m1 with pathParts := ps })
      else updatePreviewChecked rd m1)
  else some m

/-- Source `navigateDown` with `m.columns[m.activeCol]` and
`col.Entries[col.Cursor]` checked. -/
def navigateDownChecked (rd : Reader) (m : Model) : Option Model :=
  if m.activeCol ≥ m.columns.length then some m
  else
    (indexAt m.columns m.activeCol).bind (fun col =>
      if col.Cursor ≥ col.Entries.length then some m
      else
        (indexAt col.Entries col.Cursor).bind (fun entry =>
          if !entry.IsDir then some m
          else
            (if m.activeCol + 1 < m.columns.length then
              some { m with activeCol := m.activeCol + 1 }
            else
              (loadColumnChecked rd m entry.Path (m.activeCol + 1)).map
                (fun l => { l with activeCol := l.activeCol + 1 })).bind (fun m1 =>
              updatePreviewChecked rd { m1 with pathParts := m1.pathParts ++ [entry.Name] })))

/-- One navigation event with every index and slice expression checked. -/
def stepChecked (rd : Reader) (ev : Event) (m : Model) : Option Model :=
  match ev with
  | .cursorUp => moveCursorUpChecked rd m
  | .cursorDown => moveCursorDownChecked rd m
  | .descend => navigateDownChecked rd m
  | .ascend => navigateUpChecked rd m

/-- Run a list of messages through `Update`, each with the reader answering
at that moment. -/
def runUpdate : List (Reader × Msg) → Model → Option Model
  | [], m => some m
  | (rd, msg) :: rest, m => (Update rd m msg).bind (fun r => runUpdate rest r.1)

/-- The example state reached from `demoOnB` (error already set) by the keys
up, a resize to 80 by 24, right, left. -/
def demoAfterKeys : Model :=
  { rootPath := "/r", columns := [⟨"/r", demoRoot, 0, 0⟩, ⟨"/r/a", demoA, 0, 0⟩],
    activeCol := 0, width := 80, height := 24, err := some "denied", pathParts := [],
    quitting := false }

/-! ## The directory reader `filesystem.ReadDir`

`os.ReadDir`, `filepath.Join` and `sort.Slice` belong to the Go standard
library; `ReadDir` takes them as parameters.  Names are Lean strings and are
compared as such: on well-formed UTF-8 the order of the code points is the
order of the bytes, and a name starts with the byte `.` exactly when its
first character is `.`. -/

/-- What `os.DirEntry.Info` yields and `ReadDir` copies. -/
structure FileInfo where
  Size : Int
  ModTime : Int
  Mode : Nat
  deriving DecidableEq, Repr

/-- One `os.DirEntry`, as far as `ReadDir` looks at it; `Info` may fail. -/
structure DirEntry where
  Name : String
  IsDir : Bool
  Info : Except String FileInfo

/-- The test `len(entry.Name()) > 0 && entry.Name()[0] == '.'`. -/
def isHidden (name : String) : Bool :=
  match name.data with
  | c :: _ => c == '.'
  | [] => false

/-- The comparison handed to `sort.Slice` (filesystem.go 53-58). -/
def entryLess (a b : Entry) : Bool :=
  if a.IsDir != b.IsDir then a.IsDir
  else decide (a.Name < b.Name)

/-- The loop of `ReadDir` (filesystem.go 29-50): hidden entries and entries
whose `Info` fails are skipped, the others are converted in listing order. -/
def collectEntries (join : String → String → String) (path : String)
    (entries : List DirEntry) : List Entry :=
  entries.filterMap (fun entry =>
    if isHidden entry.Name then none
    else
      match entry.Info with
      | .error _ => none
      | .ok info =>
        some { Name := entry.Name, Path := join path entry.Name, IsDir := entry.IsDir,
               Size := info.Size, ModTime := info.ModTime, Mode := info.Mode })

/-- Source `ReadDir` (filesystem.go 23-61).  `osReadDir path` is the pair that
`os.ReadDir` returns: the entries it read and the error, if any. -/
def ReadDir (osReadDir : String → List DirEntry × Option String)
    (join : String → String → String)
    (sortSlice : (Entry → Entry → Bool) → List Entry → List Entry) : Reader :=
  fun path =>
    match (osReadDir path).2 with
    | some err => .error ("failed to read directory " ++ path ++ ": " ++ err)
    | none => .ok (sortSlice entryLess (collectEntries join path (osReadDir path).1))

/-- The contract of `sort.Slice` for the comparison of `ReadDir`: the result is
a rearrangement of the input in which no element is less than an earlier
one. -/
def SortsEntries (sortSlice : (Entry → Entry → Bool) → List Entry → List Entry) : Prop :=
  ∀ l, (sortSlice entryLess l).Perm l ∧
    (sortSlice entryLess l).Pairwise (fun a b => entryLess b a = false)

/-- Whether `ReadDir` keeps a listed entry: not hidden, and `Info` succeeds. -/
def keptByReadDir (d : DirEntry) : Bool :=
  !isHidden d.Name &&
    (match d.Info with
     | .ok _ => true
     | .error _ => false)

/-- An example sort: insertion sort, by the comparison it is given. -/
def demoSort (less : Entry → Entry → Bool) (l : List Entry) : List Entry :=
  l.insertionSort (fun a b => less b a = false)

/-- An example join: the two parts with a slash between them. -/
def demoJoin (path name : String) : String := path ++ "/" ++ name

/-- An example `os.ReadDir`: `/r` lists a file, a hidden file, a directory
whose `Info` fails, and a directory; every other path fails. -/
def demoOs (path : String) : List DirEntry × Option String :=
  if path = "/r" then
    ([⟨"c.txt", false, .ok ⟨12, 0, 420⟩⟩, ⟨".git", true, .ok ⟨0, 0, 493⟩⟩,
      ⟨"b", true, .error "stat failed"⟩, ⟨"a", true, .ok ⟨0, 0, 493⟩⟩], none)
  else ([], some "no such file or directory")

/-! ## `filesystem.FormatSize` -/

/-- The value an `int64` holds after an arithmetic result `x`: wrap-around
modulo `2^64` into `[-2^63, 2^63)`. -/
def wrap64 (x : Int) : Int :=
  (x + 9223372036854775808) % 18446744073709551616 - 9223372036854775808

/-- The loop of `FormatSize` (filesystem.go 96-99), from the loop state
`(n, div, exp)`: while `n >= unit`, `div *= unit`, `exp++`, `n /= unit`.  The
division truncates, the multiplication wraps as `int64` does. -/
def formatSizeLoop (n div : Int) (exp : Nat) : Int × Nat :=
  if 1024 ≤ n then
    formatSizeLoop (Int.tdiv n 1024) (wrap64 (div * 1024)) (exp + 1)
  else (div, exp)
termination_by n.toNat
decreasing_by
  have h0 : (0 : Int) ≤ n := by omega
  rw [Int.tdiv_eq_ediv h0 (by decide)]
  omega

/-- Source `FormatSize` (filesystem.go 90-101).  `fmtFloat size div` stands for
the text of `%.1f` applied to `float64(size)/float64(div)`; the result is
`none` when the index into `"KMGTPE"` is out of range. -/
def FormatSize (fmtFloat : Int → Int → String) (size : Int) : Option String :=
  if size < 1024 then some (toString size ++ " B")
  else
    ("KMGTPE".data[(formatSizeLoop (Int.tdiv size 1024) 1024 0).2]?).map (fun c =>
      fmtFloat size (formatSizeLoop (Int.tdiv size 1024) 1024 0).1
        ++ " " ++ String.singleton c ++ "B")

/-! ## Rendering: `ui.RenderBreadcrumb`, `ui.renderColumn`, `ui.RenderMillerColumns`
and the layout part of `View`

Go strings are byte strings: `len` is the byte length and a slice expression
counts bytes.  The lipgloss styles and joins and `ui.RenderFileInfo` are
taken as parameters.  Every slice and index expression is checked; the
result is `none` when one is out of range. -/

/-- Go `s[lo:]` on a string. -/
def strSliceFrom (s : String) (lo : Int) : Option String :=
  if 0 ≤ lo ∧ lo ≤ (s.utf8ByteSize : Int) then some (s.extract ⟨lo.toNat⟩ s.endPos)
  else none

/-- Go `s[:hi]` on a string. -/
def strSliceTo (s : String) (hi : Int) : Option String :=
  if 0 ≤ hi ∧ hi ≤ (s.utf8ByteSize : Int) then some (s.extract 0 ⟨hi.toNat⟩)
  else none

/-- Go `xs[:hi]` on a slice, with an integer bound. -/
def linesSliceTo (xs : List String) (hi : Int) : Option (List String) :=
  if 0 ≤ hi ∧ hi ≤ (xs.length : Int) then some (xs.take hi.toNat)
  else none

/-- The lipgloss renderers and `ui.RenderFileInfo`, as `View` uses them. -/
structure Styles where
  header : Int → String → String
  selectedItem : String → String
  normalItem : String → String
  directoryItem : String → String
  columnBox : Int → Bool → String → String
  joinHorizontal : List String → String
  joinVertical : List String → String
  fileInfo : Option Entry → Int → String
  footer : String

/-- The constant `columnWidth` of miller.go. -/
def columnWidth : Int := 30

/-- The constant `maxColumns` of miller.go. -/
def maxColumns : Nat := 3

/-- Source `RenderBreadcrumb` (miller.go 153-167). -/
def RenderBreadcrumb (st : Styles) (pathParts : List String) (width : Int) : Option String :=
  if pathParts.length = 0 then some (st.header width "/")
  else
    let breadcrumb := "/" ++ " > ".intercalate pathParts
    if (breadcrumb.utf8ByteSize : Int) > width - 4 then
      (strSliceFrom breadcrumb ((breadcrumb.utf8ByteSize : Int) - (width - 7))).map
        (fun t => st.header width ("..." ++ t))
    else some (st.header width breadcrumb)

/-- One item line of `renderColumn` (miller.go 97-122) for the entry at index `i`. -/
def renderItem (st : Styles) (col : Column) (isActive : Bool) (i : Nat) (entry : Entry) :
    Option String :=
  let isSelected := i == col.Cursor && isActive
  let itemText := if entry.IsDir then entry.Name ++ "/" else entry.Name
  let maxLen : Int := columnWidth - 4
  (if (itemText.utf8ByteSize : Int) > maxLen then
      (strSliceTo itemText (maxLen - 3)).map (fun t => t ++ "...")
    else some itemText).map (fun text =>
      if isSelected then st.selectedItem text
      else if entry.IsDir then st.directoryItem text
      else st.normalItem text)

/-- The end of the visible range of `renderColumn` (miller.go 89-93). -/
def visibleEnd (col : Column) : Nat :=
  if col.Scroll + visibleItems > col.Entries.length then col.Entries.length
  else col.Scroll + visibleItems

/-- The item loop of `renderColumn` (miller.go 96-123), over the indices from
`col.Scroll` up to the end of the visible range. -/
def columnItems (st : Styles) (col : Column) (isActive : Bool) : Option (List String) :=
  (List.range' col.Scroll (visibleEnd col - col.Scroll)).mapM (fun i =>
    (indexAt col.Entries i).bind (renderItem st col isActive i))

/-- The scroll indicators of `renderColumn` (miller.go 126-131). -/
def withScrollMarks (st : Styles) (col : Column) (items : List String) : List String :=
  let lines1 := if col.Scroll > 0 then st.normalItem "↑ more..." :: items else items
  if visibleEnd col < col.Entries.length then lines1 ++ [st.normalItem "↓ more..."]
  else lines1

/-- The padding and clipping of `renderColumn` (miller.go 134-139): pad with
empty lines while `len(lines) < height-2`, then `lines[:height-2]` when
`len(lines) > height-2`. -/
def clipLines (lines : List String) (height : Int) : Option (List String) :=
  let padded := lines ++ List.replicate ((height - 2).toNat - lines.length) ""
  if (padded.length : Int) > height - 2 then linesSliceTo padded (height - 2)
  else some padded

/-- Source `renderColumn` (miller.go 85-150). -/
def renderColumn (st : Styles) (col : Column) (isActive : Bool) (height : Int) :
    Option String :=
  (columnItems st col isActive).bind (fun items =>
    (clipLines (withScrollMarks st col items) height).map (fun lines =>
      st.columnBox height isActive ("\n".intercalate lines)))

/-- The columns that `RenderMillerColumns` shows (miller.go 52-70), as
`(startCol, endCol)`.  The clamps `if startCol < 0 { startCol = 0 }` are the
truncating subtractions. -/
def visibleRange (n activeColumnIdx : Nat) : Nat × Nat :=
  if n > maxColumns then
    let startCol := activeColumnIdx - 1
    if startCol + maxColumns > n then (n - maxColumns, n)
    else (startCol, startCol + maxColumns)
  else (0, n)

/-- Source `RenderMillerColumns` (miller.go 50-83). -/
def RenderMillerColumns (st : Styles) (columns : List Column) (activeColumnIdx : Nat)
    (height : Int) : Option String :=
  ((List.range' (visibleRange columns.length activeColumnIdx).1
      ((visibleRange columns.length activeColumnIdx).2
        - (visibleRange columns.length activeColumnIdx).1)).mapM (fun i =>
      (indexAt columns i).bind (fun col =>
        renderColumn st col (i == activeColumnIdx) height))).map st.joinHorizontal

/-- Source `View` (model.go 76-117) with the layout spelled out: `none` when a
slice or index expression of the rendering is out of range. -/
def ViewChecked (st : Styles) (m : Model) : Option String :=
  if m.quitting then some "Goodbye!\n"
  else
    match m.err with
    | some e => some ("Error: " ++ e ++ "\nPress q to quit.\n")
    | none =>
      if m.width = 0 ∨ m.height = 0 then some "Loading..."
      else
        let contentHeight := m.height - 3
        (RenderBreadcrumb st m.pathParts m.width).bind (fun breadcrumb =>
          (RenderMillerColumns st m.columns m.activeCol contentHeight).map
            (fun millerColumns =>
              let info := st.fileInfo (selected m) contentHeight
              let mainContent := st.joinHorizontal [millerColumns, info]
              st.joinVertical [breadcrumb, mainContent, st.footer]))

/-- Example renderers that add nothing to the text. -/
def plainStyles : Styles :=
  { header := fun _ s => s, selectedItem := fun s => "> " ++ s, normalItem := id,
    directoryItem := id, columnBox := fun _ _ s => s,
    joinHorizontal := fun l => " | ".intercalate l,
    joinVertical := fun l => "\n".intercalate l,
    fileInfo := fun _ _ => "", footer := "" }

/-! ## Basic facts about `loadColumn` and `updatePreview` -/

theorem loadColumn_error (rd : Reader) (m : Model) (path : String) (colIdx : Nat)
    (msg : String) (h : rd path = .error msg) :
    loadColumn rd m path colIdx = { m with err := some msg } := by
  simp [loadColumn, h]

theorem loadColumn_ok (rd : Reader) (m : Model) (path : String) (colIdx : Nat)
    (es : List Entry) (h : rd path = .ok es) (hi : colIdx ≤ m.columns.length) :
    loadColumn rd m path colIdx =
      { m with columns := m.columns.take colIdx ++ [⟨path, es, 0, 0⟩] } := by
  simp only [loadColumn, h]
  by_cases hge : colIdx ≥ m.columns.length
  · have : colIdx = m.columns.length := Nat.le_antisymm hi hge
    simp [this]
  · simp [hge]

/-- What `updatePreview` does, by cases on the selection of the active column. -/
theorem updatePreview_cases (rd : Reader) (m : Model) :
    (selected m = none ∧ updatePreview rd m = m) ∨
    ∃ c e, m.columns[m.activeCol]? = some c ∧ c.Entries[c.Cursor]? = some e ∧
      ((e.IsDir = false ∧
          updatePreview rd m = { m with columns := m.columns.take (m.activeCol + 1) }) ∨
       (e.IsDir = true ∧ ∃ msg, rd e.Path = .error msg ∧
          updatePreview rd m = { m with err := some msg }) ∨
       (e.IsDir = true ∧ ∃ es, rd e.Path = .ok es ∧
          updatePreview rd m =
            { m with columns := m.columns.take (m.activeCol + 1) ++ [⟨e.Path, es, 0, 0⟩] })) := by
  cases hc : m.columns[m.activeCol]? with
  | none => left; simp [selected, updatePreview, hc]
  | some c =>
    cases he : c.Entries[c.Cursor]? with
    | none => left; simp [selected, updatePreview, hc, he]
    | some e =>
      right
      refine ⟨c, e, rfl, he, ?_⟩
      have hlt : m.activeCol < m.columns.length := by
        rcases List.getElem?_eq_some_iff.mp hc with ⟨h, _⟩
        exact h
      cases hd : e.IsDir with
      | false =>
        left
        refine ⟨rfl, ?_⟩
        simp only [updatePreview, hc, he, hd]
        by_cases hlen : m.activeCol + 1 < m.columns.length
        · simp [hlen]
        · have : m.columns.take (m.activeCol + 1) = m.columns :=
            List.take_of_length_le (by omega)
          simp [hlen, this]
      | true =>
        right
        cases hr : rd e.Path with
        | error msg =>
          left
          refine ⟨rfl, msg, rfl, ?_⟩
          simp [updatePreview, hc, he, hd, loadColumn_error rd m e.Path _ msg hr]
        | ok es =>
          right
          refine ⟨rfl, es, rfl, ?_⟩
          have hl := loadColumn_ok rd m e.Path (m.activeCol + 1) es hr (by omega)
          simp [updatePreview, hc, he, hd, hl]

theorem moveCursorUp_eq (rd : Reader) (m : Model) (col : Column)
    (hc : m.columns[m.activeCol]? = some col) (h : col.Cursor > 0) :
    moveCursorUp rd m =
      updatePreview rd { m with columns := m.columns.set m.activeCol (cursorUpCol col) } := by
  simp [moveCursorUp, hc, h, cursorUpCol]

theorem moveCursorDown_eq (rd : Reader) (m : Model) (col : Column)
    (hc : m.columns[m.activeCol]? = some col)
    (h : (col.Cursor : Int) < (col.Entries.length : Int) - 1) :
    moveCursorDown rd m =
      updatePreview rd { m with columns := m.columns.set m.activeCol (cursorDownCol col) } := by
  simp [moveCursorDown, hc, h, cursorDownCol]

theorem moveCursorUp_cases (rd : Reader) (m : Model) :
    moveCursorUp rd m = m ∨
    ∃ col, m.columns[m.activeCol]? = some col ∧ col.Cursor > 0 ∧
      moveCursorUp rd m =
        updatePreview rd { m with columns := m.columns.set m.activeCol (cursorUpCol col) } := by
  cases hc : m.columns[m.activeCol]? with
  | none => left; simp [moveCursorUp, hc]
  | some col =>
    by_cases h : col.Cursor > 0
    · right; exact ⟨col, rfl, h, moveCursorUp_eq rd m col hc h⟩
    · left; simp [moveCursorUp, hc, h]

theorem moveCursorDown_cases (rd : Reader) (m : Model) :
    moveCursorDown rd m = m ∨
    ∃ col, m.columns[m.activeCol]? = some col ∧
      (col.Cursor : Int) < (col.Entries.length : Int) - 1 ∧
      moveCursorDown rd m =
        updatePreview rd { m with columns := m.columns.set m.activeCol (cursorDownCol col) } := by
  cases hc : m.columns[m.activeCol]? with
  | none => left; simp [moveCursorDown, hc]
  | some col =>
    by_cases h : (col.Cursor : Int) < (col.Entries.length : Int) - 1
    · right; exact ⟨col, rfl, h, moveCursorDown_eq rd m col hc h⟩
    · left; simp [moveCursorDown, hc, h]

/-- The model `navigateDown` hands to `updatePreview` when the preview exists. -/
theorem navigateDown_reuse (rd : Reader) (m : Model) (col : Column) (e : Entry)
    (hc : m.columns[m.activeCol]? = some col) (he : col.Entries[col.Cursor]? = some e)
    (hd : e.IsDir = true) (hp : m.activeCol + 1 < m.columns.length) :
    navigateDown rd m =
      updatePreview rd
        { m with activeCol := m.activeCol + 1, pathParts := m.pathParts ++ [e.Name] } := by
  simp [navigateDown, hc, he, hd, hp]

theorem navigateDown_load (rd : Reader) (m : Model) (col : Column) (e : Entry)
    (hc : m.columns[m.activeCol]? = some col) (he : col.Entries[col.Cursor]? = some e)
    (hd : e.IsDir = true) (hp : ¬ m.activeCol + 1 < m.columns.length) :
    navigateDown rd m =
      updatePreview rd
        { loadColumn rd m e.Path (m.activeCol + 1) with
          activeCol := (loadColumn rd m e.Path (m.activeCol + 1)).activeCol + 1,
          pathParts := (loadColumn rd m e.Path (m.activeCol + 1)).pathParts ++ [e.Name] } := by
  simp [navigateDown, hc, he, hd, hp]

theorem navigateDown_noop (rd : Reader) (m : Model)
    (h : ∀ e, selected m = some e → e.IsDir = false) : navigateDown rd m = m := by
  unfold selected at h
  cases hc : m.columns[m.activeCol]? with
  | none => simp [navigateDown, hc]
  | some col =>
    cases he : col.Entries[col.Cursor]? with
    | none => simp [navigateDown, hc, he]
    | some e =>
      have := h e (by simp [hc, he])
      simp [navigateDown, hc, he, this]

theorem navigateUp_eq (rd : Reader) (m : Model) (h : m.activeCol > 0)
    (hl : m.activeCol ≤ m.columns.length) :
    navigateUp rd m = some (updatePreview rd
      { m with activeCol := m.activeCol - 1,
               columns := m.columns.take m.activeCol,
               pathParts := m.pathParts.take (m.pathParts.length - 1) }) := by
  have h1 : m.activeCol - 1 + 1 = m.activeCol := by omega
  by_cases hp : m.pathParts.length > 0
  · simp [navigateUp, h, h1, hl, hp]
  · have hnil : m.pathParts = [] := by
      cases hpp : m.pathParts with
      | nil => rfl
      | cons a l => simp [hpp] at hp
    simp [navigateUp, h, h1, hl, hnil]

/-! ## The cursor and scroll invariant -/

theorem colOK_fresh (p : String) (es : List Entry) : ColOK ⟨p, es, 0, 0⟩ := by
  simp [ColOK, visibleItems]

theorem cursorUpCol_fields (c : Column) :
    (cursorUpCol c).Path = c.Path ∧ (cursorUpCol c).Entries = c.Entries ∧
      (cursorUpCol c).Cursor = c.Cursor - 1 := by
  simp only [cursorUpCol]
  split <;> simp

theorem cursorDownCol_fields (c : Column) :
    (cursorDownCol c).Path = c.Path ∧ (cursorDownCol c).Entries = c.Entries ∧
      (cursorDownCol c).Cursor = c.Cursor + 1 := by
  simp only [cursorDownCol]
  split <;> simp

theorem colOK_up (c : Column) (h : ColOK c) (hpos : c.Cursor > 0) : ColOK (cursorUpCol c) := by
  simp only [cursorUpCol]
  unfold ColOK visibleItems at *
  split <;> simp only [] <;> omega

theorem colOK_down (c : Column) (h : ColOK c)
    (hlt : (c.Cursor : Int) < (c.Entries.length : Int) - 1) : ColOK (cursorDownCol c) := by
  simp only [cursorDownCol]
  unfold ColOK visibleItems at *
  split <;> simp only [] <;> omega

theorem allOK_take (cols : List Column) (k : Nat) (h : ∀ c ∈ cols, ColOK c) :
    ∀ c ∈ cols.take k, ColOK c :=
  fun c hc => h c (List.mem_of_mem_take hc)

theorem allOK_snoc (cols : List Column) (x : Column) (h : ∀ c ∈ cols, ColOK c)
    (hx : ColOK x) : ∀ c ∈ cols ++ [x], ColOK c := by
  intro c hc
  rcases List.mem_append.mp hc with hc | hc
  · exact h c hc
  · rw [List.mem_singleton.mp hc]; exact hx

theorem allOK_set (cols : List Column) (i : Nat) (x : Column) (h : ∀ c ∈ cols, ColOK c)
    (hx : ColOK x) : ∀ c ∈ cols.set i x, ColOK c := by
  intro c hc
  rcases List.mem_or_eq_of_mem_set hc with hc | hc
  · exact h c hc
  · rw [hc]; exact hx

theorem loadColumn_allOK (rd : Reader) (m : Model) (path : String) (colIdx : Nat)
    (h : ∀ c ∈ m.columns, ColOK c) : ∀ c ∈ (loadColumn rd m path colIdx).columns, ColOK c := by
  unfold loadColumn
  cases hr : rd path with
  | error msg => simpa using h
  | ok es =>
    by_cases hge : colIdx ≥ m.columns.length
    · simp only [hge, if_true]
      exact allOK_snoc _ _ h (colOK_fresh _ _)
    · simp only [hge, if_false]
      exact allOK_snoc _ _ (allOK_take _ _ h) (colOK_fresh _ _)

theorem updatePreview_allOK (rd : Reader) (m : Model) (h : ∀ c ∈ m.columns, ColOK c) :
    ∀ c ∈ (updatePreview rd m).columns, ColOK c := by
  rcases updatePreview_cases rd m with ⟨_, he⟩ | ⟨c, e, _, _, h1 | h2 | h3⟩
  · rw [he]; exact h
  · rw [h1.2]; exact allOK_take _ _ h
  · obtain ⟨_, msg, _, he⟩ := h2
    rw [he]; exact h
  · obtain ⟨_, es, _, he⟩ := h3
    rw [he]; exact allOK_snoc _ _ (allOK_take _ _ h) (colOK_fresh _ _)

theorem moveCursorUp_allOK (rd : Reader) (m : Model) (h : ∀ c ∈ m.columns, ColOK c) :
    ∀ c ∈ (moveCursorUp rd m).columns, ColOK c := by
  rcases moveCursorUp_cases rd m with he | ⟨col, hc, hpos, he⟩
  · rw [he]; exact h
  · rw [he]
    apply updatePreview_allOK
    exact allOK_set _ _ _ h (colOK_up col (h col (List.getElem?_mem hc)) hpos)

theorem moveCursorDown_allOK (rd : Reader) (m : Model) (h : ∀ c ∈ m.columns, ColOK c) :
    ∀ c ∈ (moveCursorDown rd m).columns, ColOK c := by
  rcases moveCursorDown_cases rd m with he | ⟨col, hc, hlt, he⟩
  · rw [he]; exact h
  · rw [he]
    apply updatePreview_allOK
    exact allOK_set _ _ _ h (colOK_down col (h col (List.getElem?_mem hc)) hlt)

theorem navigateDown_allOK (rd : Reader) (m : Model) (h : ∀ c ∈ m.columns, ColOK c) :
    ∀ c ∈ (navigateDown rd m).columns, ColOK c := by
  unfold navigateDown
  split
  · exact h
  · split
    · exact h
    · split
      · exact h
      · apply updatePreview_allOK
        split
        · exact h
        · exact loadColumn_allOK rd m _ _ h

theorem navigateUp_cases (rd : Reader) (m m2 : Model) (hs : navigateUp rd m = some m2) :
    (m.activeCol = 0 ∧ m2 = m) ∨
    (m.activeCol > 0 ∧ m.activeCol ≤ m.columns.length ∧
      m2 = updatePreview rd
        { m with activeCol := m.activeCol - 1,
                 columns := m.columns.take m.activeCol,
                 pathParts := m.pathParts.take (m.pathParts.length - 1) }) := by
  by_cases h : m.activeCol > 0
  · right
    by_cases hl : m.activeCol ≤ m.columns.length
    · rw [navigateUp_eq rd m h hl] at hs
      injection hs with hs
      exact ⟨h, hl, hs.symm⟩
    · have h1 : ¬ (m.activeCol - 1 + 1 ≤ m.columns.length) := by omega
      simp [navigateUp, h, h1] at hs
  · left
    simp [navigateUp, h] at hs
    exact ⟨by omega, hs.symm⟩

theorem navigateUp_allOK (rd : Reader) (m m2 : Model) (h : ∀ c ∈ m.columns, ColOK c)
    (hs : navigateUp rd m = some m2) : ∀ c ∈ m2.columns, ColOK c := by
  rcases navigateUp_cases rd m m2 hs with ⟨_, he⟩ | ⟨_, _, he⟩
  · rw [he]; exact h
  · rw [he]
    apply updatePreview_allOK
    exact allOK_take _ _ h

theorem step_allOK (rd : Reader) (ev : Event) (m m2 : Model) (h : ∀ c ∈ m.columns, ColOK c)
    (hs : step rd ev m = some m2) : ∀ c ∈ m2.columns, ColOK c := by
  cases ev with
  | cursorUp => injection hs with hs; rw [← hs]; exact moveCursorUp_allOK rd m h
  | cursorDown => injection hs with hs; rw [← hs]; exact moveCursorDown_allOK rd m h
  | descend => injection hs with hs; rw [← hs]; exact navigateDown_allOK rd m h
  | ascend => exact navigateUp_allOK rd m m2 h hs

theorem reachable_allOK (m : Model) (h : Reachable m) : ∀ c ∈ m.columns, ColOK c := by
  induction h with
  | init rd root =>
    apply loadColumn_allOK
    intro c hc
    cases hc
  | next rd ev _ hs ih => exact step_allOK rd ev _ _ ih hs

theorem reachable_of_run (evs : List (Reader × Event)) :
    ∀ (m m2 : Model), Reachable m → run evs m = some m2 → Reachable m2 := by
  induction evs with
  | nil =>
    intro m m2 h hr
    injection hr with hr
    rw [← hr]; exact h
  | cons x rest ih =>
    intro m m2 h hr
    obtain ⟨rd, ev⟩ := x
    simp only [run] at hr
    cases hs : step rd ev m with
    | none => simp [hs] at hr
    | some m1 =>
      simp only [hs, Option.bind] at hr
      exact ih m1 m2 (Reachable.next rd ev h hs) hr

/-! ## The claims -/

/-- C1: in every state reachable from `NewModel` by cursor-up, cursor-down,
descend and ascend events, whatever the reader answers at each read, every
column with a non-empty entry list has `0 <= cursor < len(entries)` and
`scroll <= cursor < scroll + 20`. -/
theorem reachable_cursor_in_window (m : Model) (h : Reachable m) (c : Column)
    (hc : c ∈ m.columns) (hne : c.Entries ≠ []) :
    0 ≤ c.Cursor ∧ c.Cursor < c.Entries.length ∧
      c.Scroll ≤ c.Cursor ∧ c.Cursor < c.Scroll + 20 := by
  obtain ⟨h1, h2, h3⟩ := reachable_allOK m h c hc
  have hlen : 0 < c.Entries.length := List.length_pos.mpr hne
  refine ⟨Nat.zero_le _, ?_, h2, h3⟩
  omega

theorem reachable_cursor_in_window_witness :
    0 ≤ (Column.mk "/r" demoRoot 1 0).Cursor ∧
      (Column.mk "/r" demoRoot 1 0).Cursor < (Column.mk "/r" demoRoot 1 0).Entries.length ∧
      (Column.mk "/r" demoRoot 1 0).Scroll ≤ (Column.mk "/r" demoRoot 1 0).Cursor ∧
      (Column.mk "/r" demoRoot 1 0).Cursor < (Column.mk "/r" demoRoot 1 0).Scroll + 20 :=
  reachable_cursor_in_window (moveCursorDown rdDemo demoInit)
    (Reachable.next rdDemo .cursorDown (Reachable.init rdDemo "/r") rfl)
    (Column.mk "/r" demoRoot 1 0) (by decide) (by decide)

/-- C3: when the reader fails on `path`, `loadColumn` leaves the columns, the
active index and the breadcrumb exactly as they were and sets the error
state; `View` of the resulting state, when it is not quitting, is the error
display, which begins with `Error: `. -/
theorem loadColumn_failure_keeps_stack (rd : Reader) (render : Model → String) (m : Model)
    (path : String) (colIdx : Nat) (msg : String) (h : rd path = .error msg) :
    (loadColumn rd m path colIdx).columns = m.columns ∧
      (loadColumn rd m path colIdx).activeCol = m.activeCol ∧
      (loadColumn rd m path colIdx).pathParts = m.pathParts ∧
      (loadColumn rd m path colIdx).err = some msg ∧
      (loadColumn rd m path colIdx).err ≠ none ∧
      ((loadColumn rd m path colIdx).quitting = false →
        View render (loadColumn rd m path colIdx)
          = "Error: " ++ (msg ++ "\nPress q to quit.\n")) := by
  rw [loadColumn_error rd m path colIdx msg h]
  refine ⟨rfl, rfl, rfl, rfl, by simp, ?_⟩
  intro hq
  simp only [] at hq
  simp [View, hq, String.append_assoc]

theorem loadColumn_failure_keeps_stack_witness :
    (loadColumn rdDemo demoInit "/r/b" 1).columns = demoInit.columns ∧
      (loadColumn rdDemo demoInit "/r/b" 1).activeCol = demoInit.activeCol ∧
      (loadColumn rdDemo demoInit "/r/b" 1).pathParts = demoInit.pathParts ∧
      (loadColumn rdDemo demoInit "/r/b" 1).err = some "denied" ∧
      (loadColumn rdDemo demoInit "/r/b" 1).err ≠ none ∧
      ((loadColumn rdDemo demoInit "/r/b" 1).quitting = false →
        View (fun _ => "") (loadColumn rdDemo demoInit "/r/b" 1)
          = "Error: " ++ ("denied" ++ "\nPress q to quit.\n")) :=
  loadColumn_failure_keeps_stack rdDemo (fun _ => "") demoInit "/r/b" 1 "denied" rfl

/-- C5: when the reader succeeds on `path` and `colIdx <= len(columns)`,
`loadColumn` yields exactly `colIdx + 1` columns; the columns below `colIdx`
are unchanged; the column at `colIdx` has the given path, the entries of the
reader in the order of the reader, cursor 0 and scroll 0; the active index
and the breadcrumb are unchanged. -/
theorem loadColumn_success_installs (rd : Reader) (m : Model) (path : String) (colIdx : Nat)
    (es : List Entry) (h : rd path = .ok es) (hi : colIdx ≤ m.columns.length) :
    (loadColumn rd m path colIdx).columns.length = colIdx + 1 ∧
      (∀ i, i < colIdx → (loadColumn rd m path colIdx).columns[i]? = m.columns[i]?) ∧
      (loadColumn rd m path colIdx).columns[colIdx]? = some ⟨path, es, 0, 0⟩ ∧
      (loadColumn rd m path colIdx).activeCol = m.activeCol ∧
      (loadColumn rd m path colIdx).pathParts = m.pathParts := by
  rw [loadColumn_ok rd m path colIdx es h hi]
  refine ⟨?_, ?_, ?_, rfl, rfl⟩
  · simp [List.length_take, Nat.min_eq_left hi]
  · intro i hlt
    simp only []
    rw [List.getElem?_append_left (by simp [List.length_take]; omega)]
    rw [List.getElem?_take_of_lt hlt]
  · simp only []
    rw [List.getElem?_append_right (by simp [List.length_take])]
    simp [List.length_take, Nat.min_eq_left hi]

theorem loadColumn_success_installs_witness :
    (loadColumn rdDemo demoInit "/r/a" 1).columns.length = 1 + 1 ∧
      (∀ i, i < 1 → (loadColumn rdDemo demoInit "/r/a" 1).columns[i]? = demoInit.columns[i]?) ∧
      (loadColumn rdDemo demoInit "/r/a" 1).columns[1]? = some ⟨"/r/a", demoA, 0, 0⟩ ∧
      (loadColumn rdDemo demoInit "/r/a" 1).activeCol = demoInit.activeCol ∧
      (loadColumn rdDemo demoInit "/r/a" 1).pathParts = demoInit.pathParts :=
  loadColumn_success_installs rdDemo demoInit "/r/a" 1 demoA rfl (by decide)

/-! ## A selected file has no column to its right -/

theorem updatePreview_file_truncates (rd : Reader) (m : Model) (e : Entry)
    (hs : selected (updatePreview rd m) = some e) (hf : e.IsDir = false) :
    (updatePreview rd m).columns.length = (updatePreview rd m).activeCol + 1 := by
  rcases updatePreview_cases rd m with ⟨hn, he⟩ | ⟨c, e2, hc, he2, h1 | h2 | h3⟩
  · rw [he, hn] at hs; cases hs
  · have hlt : m.activeCol < m.columns.length := (List.getElem?_eq_some_iff.mp hc).1
    rw [h1.2]
    simp only [List.length_take]
    omega
  · obtain ⟨hd, msg, _, he⟩ := h2
    rw [he] at hs
    simp only [selected, hc, he2] at hs
    injection hs with hs
    rw [hs, hf] at hd; cases hd
  · obtain ⟨hd, es, _, he⟩ := h3
    have hlt : m.activeCol < m.columns.length := (List.getElem?_eq_some_iff.mp hc).1
    rw [he] at hs
    simp only [selected] at hs
    rw [List.getElem?_append_left (by simp [List.length_take]; omega),
      List.getElem?_take_of_lt (by omega), hc] at hs
    simp only [he2] at hs
    injection hs with hs
    rw [hs, hf] at hd; cases hd

theorem navigateDown_cases (rd : Reader) (m : Model) :
    navigateDown rd m = m ∨ ∃ x, navigateDown rd m = updatePreview rd x := by
  cases hc : m.columns[m.activeCol]? with
  | none => left; simp [navigateDown, hc]
  | some col =>
    cases he : col.Entries[col.Cursor]? with
    | none => left; simp [navigateDown, hc, he]
    | some e =>
      cases hd : e.IsDir with
      | false => left; simp [navigateDown, hc, he, hd]
      | true =>
        right
        by_cases hp : m.activeCol + 1 < m.columns.length
        · exact ⟨_, navigateDown_reuse rd m col e hc he hd hp⟩
        · exact ⟨_, navigateDown_load rd m col e hc he hd hp⟩

theorem step_cases (rd : Reader) (ev : Event) (m m2 : Model) (hs : step rd ev m = some m2) :
    m2 = m ∨ ∃ x, m2 = updatePreview rd x := by
  cases ev with
  | cursorUp =>
    injection hs with hs
    rcases moveCursorUp_cases rd m with he | ⟨col, _, _, he⟩
    · left; rw [← hs, he]
    · right; exact ⟨_, by rw [← hs, he]⟩
  | cursorDown =>
    injection hs with hs
    rcases moveCursorDown_cases rd m with he | ⟨col, _, _, he⟩
    · left; rw [← hs, he]
    · right; exact ⟨_, by rw [← hs, he]⟩
  | descend =>
    injection hs with hs
    rcases navigateDown_cases rd m with he | ⟨x, he⟩
    · left; rw [← hs, he]
    · right; exact ⟨x, by rw [← hs, he]⟩
  | ascend =>
    rcases navigateUp_cases rd m m2 hs with ⟨_, he⟩ | ⟨_, _, he⟩
    · left; exact he
    · right; exact ⟨_, he⟩

theorem newModel_cases (rd : Reader) (rootPath : String) :
    (∃ msg, rd rootPath = .error msg ∧
      NewModel rd rootPath =
        { rootPath := rootPath, columns := [], activeCol := 0, width := 0, height := 0,
          err := some msg, pathParts := [], quitting := false }) ∨
    (∃ es, rd rootPath = .ok es ∧
      NewModel rd rootPath =
        { rootPath := rootPath, columns := [⟨rootPath, es, 0, 0⟩], activeCol := 0, width := 0,
          height := 0, err := none, pathParts := [], quitting := false }) := by
  cases hr : rd rootPath with
  | error msg => left; exact ⟨msg, rfl, by simp [NewModel, loadColumn, hr]⟩
  | ok es => right; exact ⟨es, rfl, by simp [NewModel, loadColumn, hr]⟩

/-- C7: in every state reachable from `NewModel` by cursor-up, cursor-down,
descend and ascend events, if the entry selected in the active column is a
file (not a directory), no column exists beyond the active index:
`len(columns) = active + 1`. -/
theorem reachable_file_has_no_preview (m : Model) (h : Reachable m) (e : Entry)
    (hs : selected m = some e) (hf : e.IsDir = false) :
    m.columns.length = m.activeCol + 1 := by
  induction h with
  | init rd root =>
    rcases newModel_cases rd root with ⟨msg, _, he⟩ | ⟨es, _, he⟩
    · rw [he] at hs; simp [selected] at hs
    · rw [he]; rfl
  | next rd ev _ hstep ih =>
    rcases step_cases rd ev _ _ hstep with he | ⟨x, he⟩
    · rw [he] at hs ⊢; exact ih hs
    · rw [he] at hs ⊢; exact updatePreview_file_truncates rd x e hs hf

theorem reachable_file_has_no_preview_witness :
    demoFile.columns.length = demoFile.activeCol + 1 :=
  reachable_file_has_no_preview demoFile
    (reachable_of_run
      [(rdDemo, .cursorDown), (rdDemo, .cursorUp), (rdDemo, .cursorDown), (rdDemo, .cursorDown)]
      demoInit demoFile (Reachable.init rdDemo "/r") rfl)
    (mkEntry "c.txt" "/r/c.txt" false) (by decide) rfl

/-! ## Each column lists the directory selected in the column before it -/

theorem linked_take (cols : List Column) (k : Nat) (h : ∀ i, Linked cols i) :
    ∀ i, Linked (cols.take k) i := by
  intro i nxt hn
  rw [List.getElem?_take] at hn
  split at hn
  · rename_i hlt
    obtain ⟨c, e, hc, he, hp, hd⟩ := h i nxt hn
    exact ⟨c, e, by rw [List.getElem?_take_of_lt (by omega)]; exact hc, he, hp, hd⟩
  · cases hn

theorem linked_snoc (cols : List Column) (a : Nat) (c x : Column) (e : Entry)
    (h : ∀ i, Linked cols i) (hlen : cols.length = a + 1) (hc : cols[a]? = some c)
    (he : c.Entries[c.Cursor]? = some e) (hp : x.Path = e.Path) (hd : e.IsDir = true) :
    ∀ i, Linked (cols ++ [x]) i := by
  intro i nxt hn
  by_cases hi : i + 1 < cols.length
  · rw [List.getElem?_append_left hi] at hn
    obtain ⟨c2, e2, hc2, he2, hp2, hd2⟩ := h i nxt hn
    exact ⟨c2, e2, by rw [List.getElem?_append_left (by omega)]; exact hc2, he2, hp2, hd2⟩
  · rw [List.getElem?_append_right (by omega)] at hn
    have hi2 : i + 1 - cols.length = 0 := by
      by_contra hne
      rw [List.getElem?_eq_none (by simp; omega)] at hn
      cases hn
    rw [hi2] at hn
    simp at hn
    have hia : i = a := by omega
    refine ⟨c, e, ?_, he, by rw [← hn]; exact hp, hd⟩
    rw [List.getElem?_append_left (by omega), hia]
    exact hc

theorem linked_set_take (cols : List Column) (a : Nat) (c c2 : Column)
    (h : ∀ i, Linked cols i) (hc : cols[a]? = some c) (hp : c2.Path = c.Path) :
    ∀ i, Linked ((cols.set a c2).take (a + 1)) i := by
  intro i nxt hn
  rw [List.getElem?_take] at hn
  split at hn
  · rename_i hlt
    rw [List.getElem?_take_of_lt (by omega), List.getElem?_set_ne (by omega)]
    by_cases hia : i + 1 = a
    · have hlen : a < cols.length := (List.getElem?_eq_some_iff.mp hc).1
      rw [hia, List.getElem?_set_self hlen] at hn
      injection hn with hn
      obtain ⟨c3, e3, hc3, he3, hp3, hd3⟩ := h i c (by rw [hia]; exact hc)
      exact ⟨c3, e3, hc3, he3, by rw [← hn, hp]; exact hp3, hd3⟩
    · rw [List.getElem?_set_ne (by omega)] at hn
      exact h i nxt hn
  · cases hn

theorem updatePreview_err (rd : Reader) (m : Model) (h : (updatePreview rd m).err = none) :
    m.err = none := by
  rcases updatePreview_cases rd m with ⟨_, he⟩ | ⟨c, e, _, _, h1 | h2 | h3⟩
  · rw [he] at h; exact h
  · rw [h1.2] at h; exact h
  · obtain ⟨_, msg, _, he⟩ := h2
    rw [he] at h; cases h
  · obtain ⟨_, es, _, he⟩ := h3
    rw [he] at h; exact h

theorem updatePreview_linked (rd : Reader) (m : Model)
    (hsel : selected m = none → ∀ i, Linked m.columns i)
    (htake : ∀ i, Linked (m.columns.take (m.activeCol + 1)) i)
    (herr : (updatePreview rd m).err = none) :
    ∀ i, Linked (updatePreview rd m).columns i := by
  rcases updatePreview_cases rd m with ⟨hn, he⟩ | ⟨c, e, hc, he2, h1 | h2 | h3⟩
  · rw [he]; exact hsel hn
  · rw [h1.2]; exact htake
  · obtain ⟨_, msg, _, he⟩ := h2
    rw [he] at herr; cases herr
  · obtain ⟨hd, es, _, he⟩ := h3
    have hlt : m.activeCol < m.columns.length := (List.getElem?_eq_some_iff.mp hc).1
    rw [he]
    refine linked_snoc _ m.activeCol c _ e htake ?_ ?_ he2 rfl hd
    · simp only [List.length_take]; omega
    · rw [List.getElem?_take_of_lt (by omega)]; exact hc

theorem updatePreview_linked_of_all (rd : Reader) (m : Model)
    (h : ∀ i, Linked m.columns i) (herr : (updatePreview rd m).err = none) :
    ∀ i, Linked (updatePreview rd m).columns i :=
  updatePreview_linked rd m (fun _ => h) (linked_take _ _ h) herr

theorem selected_set (m : Model) (col c2 : Column) (hc : m.columns[m.activeCol]? = some col) :
    selected { m with columns := m.columns.set m.activeCol c2 } = c2.Entries[c2.Cursor]? := by
  have hlt : m.activeCol < m.columns.length := (List.getElem?_eq_some_iff.mp hc).1
  simp only [selected, List.getElem?_set_self hlt]

theorem moveCursorUp_linked (rd : Reader) (m : Model) (hok : ∀ c ∈ m.columns, ColOK c)
    (h : ∀ i, Linked m.columns i) (herr : (moveCursorUp rd m).err = none) :
    ∀ i, Linked (moveCursorUp rd m).columns i := by
  rcases moveCursorUp_cases rd m with he | ⟨col, hc, hpos, he⟩
  · rw [he]; exact h
  · rw [he] at herr ⊢
    obtain ⟨hP, hE, hC⟩ := cursorUpCol_fields col
    refine updatePreview_linked rd _ ?_ (linked_set_take _ _ col _ h hc hP) herr
    intro hn
    rw [selected_set m col _ hc, hE, hC] at hn
    have hcur := (hok col (List.getElem?_mem hc)).1
    rw [List.getElem?_eq_none_iff] at hn
    omega

theorem moveCursorDown_linked (rd : Reader) (m : Model)
    (h : ∀ i, Linked m.columns i) (herr : (moveCursorDown rd m).err = none) :
    ∀ i, Linked (moveCursorDown rd m).columns i := by
  rcases moveCursorDown_cases rd m with he | ⟨col, hc, hlt, he⟩
  · rw [he]; exact h
  · rw [he] at herr ⊢
    obtain ⟨hP, hE, hC⟩ := cursorDownCol_fields col
    refine updatePreview_linked rd _ ?_ (linked_set_take _ _ col _ h hc hP) herr
    intro hn
    rw [selected_set m col _ hc, hE, hC] at hn
    rw [List.getElem?_eq_none_iff] at hn
    omega

theorem navigateDown_linked (rd : Reader) (m : Model)
    (h : ∀ i, Linked m.columns i) (herr : (navigateDown rd m).err = none) :
    ∀ i, Linked (navigateDown rd m).columns i := by
  cases hc : m.columns[m.activeCol]? with
  | none => simpa [navigateDown, hc] using h
  | some col =>
    cases he : col.Entries[col.Cursor]? with
    | none => simpa [navigateDown, hc, he] using h
    | some e =>
      cases hd : e.IsDir with
      | false => simpa [navigateDown, hc, he, hd] using h
      | true =>
        have hlt : m.activeCol < m.columns.length := (List.getElem?_eq_some_iff.mp hc).1
        by_cases hp : m.activeCol + 1 < m.columns.length
        · rw [navigateDown_reuse rd m col e hc he hd hp] at herr ⊢
          exact updatePreview_linked_of_all rd _ h herr
        · rw [navigateDown_load rd m col e hc he hd hp] at herr ⊢
          cases hr : rd e.Path with
          | error msg =>
            have := updatePreview_err rd _ herr
            rw [loadColumn_error rd m e.Path _ msg hr] at this
            cases this
          | ok es =>
            have hl := loadColumn_ok rd m e.Path (m.activeCol + 1) es hr (by omega)
            refine updatePreview_linked_of_all rd _ ?_ herr
            rw [hl]
            refine linked_snoc _ m.activeCol col _ e (linked_take _ _ h) ?_ ?_ he rfl hd
            · simp only [List.length_take]; omega
            · rw [List.getElem?_take_of_lt (by omega)]; exact hc

theorem navigateUp_linked (rd : Reader) (m m2 : Model) (hs : navigateUp rd m = some m2)
    (h : ∀ i, Linked m.columns i) (herr : m2.err = none) :
    ∀ i, Linked m2.columns i := by
  rcases navigateUp_cases rd m m2 hs with ⟨_, he⟩ | ⟨_, _, he⟩
  · rw [he]; exact h
  · rw [he] at herr ⊢
    exact updatePreview_linked_of_all rd _ (linked_take _ _ h) herr

theorem loadColumn_err (rd : Reader) (m : Model) (path : String) (colIdx : Nat)
    (h : (loadColumn rd m path colIdx).err = none) : m.err = none := by
  unfold loadColumn at h
  split at h
  · cases h
  · split at h <;> exact h

/-- The error state is never cleared by a navigation event. -/
theorem step_err (rd : Reader) (ev : Event) (m m2 : Model) (hs : step rd ev m = some m2)
    (h : m2.err = none) : m.err = none := by
  cases ev with
  | cursorUp =>
    injection hs with hs
    rw [← hs] at h
    rcases moveCursorUp_cases rd m with he | ⟨col, _, _, he⟩
    · rw [he] at h; exact h
    · rw [he] at h; have h2 := updatePreview_err rd _ h; exact h2
  | cursorDown =>
    injection hs with hs
    rw [← hs] at h
    rcases moveCursorDown_cases rd m with he | ⟨col, _, _, he⟩
    · rw [he] at h; exact h
    · rw [he] at h; have h2 := updatePreview_err rd _ h; exact h2
  | descend =>
    injection hs with hs
    rw [← hs] at h
    unfold navigateDown at h
    split at h
    · exact h
    · split at h
      · exact h
      · split at h
        · exact h
        · have h2 := updatePreview_err rd _ h
          split at h2
          · exact h2
          · exact loadColumn_err rd m _ _ h2
  | ascend =>
    rcases navigateUp_cases rd m m2 hs with ⟨_, he⟩ | ⟨_, _, he⟩
    · rw [he] at h; exact h
    · rw [he] at h; have h2 := updatePreview_err rd _ h; exact h2

theorem reachable_linked (m : Model) (h : Reachable m) (herr : m.err = none) :
    ∀ i, Linked m.columns i := by
  induction h with
  | init rd root =>
    rcases newModel_cases rd root with ⟨msg, _, he⟩ | ⟨es, _, he⟩
    · rw [he] at herr; cases herr
    · rw [he]
      intro i nxt hn
      simp at hn
  | @next m m2 rd ev hm hs ih =>
    have ih := ih (step_err rd ev m m2 hs herr)
    cases ev with
    | cursorUp =>
      injection hs with hs
      rw [← hs] at herr ⊢
      exact moveCursorUp_linked rd m (reachable_allOK m hm) ih herr
    | cursorDown =>
      injection hs with hs
      rw [← hs] at herr ⊢
      exact moveCursorDown_linked rd m ih herr
    | descend =>
      injection hs with hs
      rw [← hs] at herr ⊢
      exact navigateDown_linked rd m ih herr
    | ascend => exact navigateUp_linked rd m m2 hs ih herr

/-- The claim C2 as stated fails: after down, up, down, descend with a reader
that cannot read `b`, column 1 lists `/r/a` while the cursor of column 0
is on `b`. -/
theorem stale_preview_counterexample :
    Reachable demoStale ∧ ¬ (∀ i, i < demoStale.activeCol → Linked demoStale.columns i) := by
  refine ⟨reachable_of_run
      [(rdDemo, .cursorDown), (rdDemo, .cursorUp), (rdDemo, .cursorDown), (rdDemo, .descend)]
      demoInit demoStale (Reachable.init rdDemo "/r") rfl, ?_⟩
  intro h
  obtain ⟨c, e, hc, he, hp, _⟩ := h 0 (by decide) ⟨"/r/a", demoA, 0, 0⟩ (by decide)
  have hc2 : c = ⟨"/r", demoRoot, 1, 0⟩ := by
    have : demoStale.columns[0]? = some ⟨"/r", demoRoot, 1, 0⟩ := by decide
    rw [this] at hc
    injection hc with hc
    exact hc.symm
  subst hc2
  have he2 : e = mkEntry "b" "/r/b" true := by
    have : demoRoot[1]? = some (mkEntry "b" "/r/b" true) := by decide
    simp only [] at he
    rw [this] at he
    injection he with he
    exact he.symm
  subst he2
  revert hp
  decide

/-- C2, amended: in every state reachable from `NewModel` by cursor-up,
cursor-down, descend and ascend events in which no read has failed (the error
state is nil), for every index `i < active` such that column `i+1` exists,
the path of column `i+1` is the path of the entry at the cursor of column
`i`, and that entry is a directory. -/
theorem reachable_columns_linked (m : Model) (h : Reachable m) (herr : m.err = none)
    (i : Nat) (_hi : i < m.activeCol) (nxt : Column) (hn : m.columns[i + 1]? = some nxt) :
    ∃ c e, m.columns[i]? = some c ∧ c.Entries[c.Cursor]? = some e ∧
      nxt.Path = e.Path ∧ e.IsDir = true :=
  reachable_linked m h herr i nxt hn

theorem reachable_columns_linked_witness :
    ∃ c e, demoIn.columns[0]? = some c ∧ c.Entries[c.Cursor]? = some e ∧
      (Column.mk "/r/a" demoA 0 0).Path = e.Path ∧ e.IsDir = true :=
  reachable_columns_linked demoIn
    (Reachable.next rdDemo .descend (Reachable.init rdDemo "/r") rfl)
    (by decide) 0 (by decide) ⟨"/r/a", demoA, 0, 0⟩ (by decide)

/-! ## Descend and ascend -/

theorem updatePreview_frame (rd : Reader) (m : Model) :
    (updatePreview rd m).activeCol = m.activeCol ∧
      (updatePreview rd m).pathParts = m.pathParts := by
  rcases updatePreview_cases rd m with ⟨_, he⟩ | ⟨c, e, _, _, h1 | h2 | h3⟩
  · rw [he]; exact ⟨rfl, rfl⟩
  · rw [h1.2]; exact ⟨rfl, rfl⟩
  · obtain ⟨_, msg, _, he⟩ := h2
    rw [he]; exact ⟨rfl, rfl⟩
  · obtain ⟨_, es, _, he⟩ := h3
    rw [he]; exact ⟨rfl, rfl⟩

theorem updatePreview_length_ge (rd : Reader) (m : Model) :
    min m.columns.length (m.activeCol + 1) ≤ (updatePreview rd m).columns.length := by
  rcases updatePreview_cases rd m with ⟨_, he⟩ | ⟨c, e, _, _, h1 | h2 | h3⟩
  · rw [he]; omega
  · rw [h1.2]; simp only [List.length_take]; omega
  · obtain ⟨_, msg, _, he⟩ := h2
    rw [he]; simp only []; omega
  · obtain ⟨_, es, _, he⟩ := h3
    rw [he]; simp only [List.length_append, List.length_take, List.length_singleton]; omega

theorem updatePreview_no_active (rd : Reader) (m : Model)
    (h : m.columns.length ≤ m.activeCol) : updatePreview rd m = m := by
  have : m.columns[m.activeCol]? = none := List.getElem?_eq_none h
  simp [updatePreview, this]

/-- What a descend does when the selected directory has no column yet and
cannot be read. -/
theorem navigateDown_failed_load (rd : Reader) (m : Model) (e : Entry) (msg : String)
    (hs : selected m = some e) (hd : e.IsDir = true)
    (hp : m.columns[m.activeCol + 1]? = none) (hr : rd e.Path = .error msg) :
    navigateDown rd m =
      { m with err := some msg, activeCol := m.activeCol + 1,
               pathParts := m.pathParts ++ [e.Name] } := by
  unfold selected at hs
  cases hc : m.columns[m.activeCol]? with
  | none => rw [hc] at hs; cases hs
  | some col =>
    rw [hc] at hs
    simp only [] at hs
    have hlt : m.activeCol < m.columns.length := (List.getElem?_eq_some_iff.mp hc).1
    have hlen : m.columns.length ≤ m.activeCol + 1 := List.getElem?_eq_none_iff.mp hp
    rw [navigateDown_load rd m col e hc hs hd (by omega),
      loadColumn_error rd m e.Path _ msg hr]
    exact updatePreview_no_active rd _ hlen

/-- The claim C4 as stated fails: at startup on `/q` the cursor is on the
directory `b`, no column 1 exists and `b` cannot be read; descend leaves the
columns alone but moves the active index to 1 and the breadcrumb to `["b"]`. -/
theorem failed_descend_counterexample :
    selected demoDenied = some (mkEntry "b" "/q/b" true) ∧
      demoDenied.columns[demoDenied.activeCol + 1]? = none ∧
      rdDenied "/q/b" = .error "denied" ∧
      (navigateDown rdDenied demoDenied).columns = demoDenied.columns ∧
      (navigateDown rdDenied demoDenied).activeCol ≠ demoDenied.activeCol ∧
      (navigateDown rdDenied demoDenied).pathParts ≠ demoDenied.pathParts := by
  refine ⟨by decide, by decide, rfl, by decide, by decide, by decide⟩

/-- C4, amended: for every state in which the active selection is a
directory, no column exists at `active+1`, and the reader fails on that
directory, descend leaves the columns exactly as they were and sets the
error state, and it advances the active index by one (to an index where no
column exists) and appends the name of the selected entry to the
breadcrumb. -/
theorem navigateDown_failure_advances (rd : Reader) (m : Model) (e : Entry) (msg : String)
    (hs : selected m = some e) (hd : e.IsDir = true)
    (hp : m.columns[m.activeCol + 1]? = none) (hr : rd e.Path = .error msg) :
    (navigateDown rd m).columns = m.columns ∧
      (navigateDown rd m).err = some msg ∧
      (navigateDown rd m).activeCol = m.activeCol + 1 ∧
      (navigateDown rd m).columns[(navigateDown rd m).activeCol]? = none ∧
      (navigateDown rd m).pathParts = m.pathParts ++ [e.Name] := by
  rw [navigateDown_failed_load rd m e msg hs hd hp hr]
  exact ⟨rfl, rfl, rfl, hp, rfl⟩

theorem navigateDown_failure_advances_witness :
    (navigateDown rdDenied demoDenied).columns = demoDenied.columns ∧
      (navigateDown rdDenied demoDenied).err = some "denied" ∧
      (navigateDown rdDenied demoDenied).activeCol = demoDenied.activeCol + 1 ∧
      (navigateDown rdDenied demoDenied).columns[(navigateDown rdDenied demoDenied).activeCol]?
        = none ∧
      (navigateDown rdDenied demoDenied).pathParts
        = demoDenied.pathParts ++ [(mkEntry "b" "/q/b" true).Name] :=
  navigateDown_failure_advances rdDenied demoDenied (mkEntry "b" "/q/b" true) "denied"
    (by decide) rfl (by decide) rfl

theorem navigateDown_load_error (rd : Reader) (m : Model) (col : Column) (e : Entry)
    (msg : String) (hc : m.columns[m.activeCol]? = some col)
    (he : col.Entries[col.Cursor]? = some e) (hd : e.IsDir = true)
    (hp : ¬ m.activeCol + 1 < m.columns.length) (hr : rd e.Path = .error msg) :
    navigateDown rd m =
      updatePreview rd
        { m with err := some msg, activeCol := m.activeCol + 1,
                 pathParts := m.pathParts ++ [e.Name] } := by
  rw [navigateDown_load rd m col e hc he hd hp, loadColumn_error rd m e.Path _ msg hr]

theorem navigateDown_load_ok (rd : Reader) (m : Model) (col : Column) (e : Entry)
    (es : List Entry) (hc : m.columns[m.activeCol]? = some col)
    (he : col.Entries[col.Cursor]? = some e) (hd : e.IsDir = true)
    (hp : ¬ m.activeCol + 1 < m.columns.length) (hr : rd e.Path = .ok es) :
    navigateDown rd m =
      updatePreview rd
        { m with columns := m.columns.take (m.activeCol + 1) ++ [⟨e.Path, es, 0, 0⟩],
                 activeCol := m.activeCol + 1,
                 pathParts := m.pathParts ++ [e.Name] } := by
  have hlt : m.activeCol < m.columns.length := (List.getElem?_eq_some_iff.mp hc).1
  rw [navigateDown_load rd m col e hc he hd hp,
    loadColumn_ok rd m e.Path _ es hr (by omega)]

theorem navigateDown_frame (rd : Reader) (m : Model) (e : Entry)
    (hs : selected m = some e) (hd : e.IsDir = true) :
    (navigateDown rd m).activeCol = m.activeCol + 1 ∧
      (navigateDown rd m).pathParts = m.pathParts ++ [e.Name] ∧
      m.activeCol + 1 ≤ (navigateDown rd m).columns.length := by
  unfold selected at hs
  cases hc : m.columns[m.activeCol]? with
  | none => rw [hc] at hs; cases hs
  | some col =>
    rw [hc] at hs
    simp only [] at hs
    have hlt : m.activeCol < m.columns.length := (List.getElem?_eq_some_iff.mp hc).1
    by_cases hp : m.activeCol + 1 < m.columns.length
    · rw [navigateDown_reuse rd m col e hc hs hd hp]
      refine ⟨(updatePreview_frame rd _).1, (updatePreview_frame rd _).2, ?_⟩
      have := updatePreview_length_ge rd
        { m with activeCol := m.activeCol + 1, pathParts := m.pathParts ++ [e.Name] }
      simp only [] at this
      omega
    · cases hr : rd e.Path with
      | error msg =>
        rw [navigateDown_load_error rd m col e msg hc hs hd hp hr]
        refine ⟨(updatePreview_frame rd _).1, (updatePreview_frame rd _).2, ?_⟩
        have := updatePreview_length_ge rd
          { m with err := some msg, activeCol := m.activeCol + 1,
                   pathParts := m.pathParts ++ [e.Name] }
        simp only [] at this
        omega
      | ok es =>
        rw [navigateDown_load_ok rd m col e es hc hs hd hp hr]
        refine ⟨(updatePreview_frame rd _).1, (updatePreview_frame rd _).2, ?_⟩
        have := updatePreview_length_ge rd
          { m with columns := m.columns.take (m.activeCol + 1) ++ [⟨e.Path, es, 0, 0⟩],
                   activeCol := m.activeCol + 1,
                   pathParts := m.pathParts ++ [e.Name] }
        simp only [List.length_append, List.length_take, List.length_singleton] at this
        omega

/-- C6: for every state (reachable or not) whose active selection is a
directory, descend followed by ascend succeeds and yields a state whose
breadcrumb and active index equal those before the descend, whatever the
reader answers during the descend (`rd1`) and during the ascend (`rd2`). -/
theorem descend_then_ascend_restores (rd1 rd2 : Reader) (m : Model) (e : Entry)
    (hs : selected m = some e) (hd : e.IsDir = true) :
    ∃ m2, navigateUp rd2 (navigateDown rd1 m) = some m2 ∧
      m2.activeCol = m.activeCol ∧ m2.pathParts = m.pathParts := by
  obtain ⟨ha, hp, hl⟩ := navigateDown_frame rd1 m e hs hd
  refine ⟨_, navigateUp_eq rd2 _ (by omega) (by omega), ?_, ?_⟩
  · rw [(updatePreview_frame rd2 _).1]
    simp only [ha]
    omega
  · rw [(updatePreview_frame rd2 _).2]
    simp only [hp]
    simp

theorem descend_then_ascend_restores_witness :
    ∃ m2, navigateUp rdDemo (navigateDown rdDenied demoInit) = some m2 ∧
      m2.activeCol = demoInit.activeCol ∧ m2.pathParts = demoInit.pathParts :=
  descend_then_ascend_restores rdDenied rdDemo demoInit (mkEntry "a" "/r/a" true)
    (by decide) rfl

/-! ## The preview refresh after a cursor move, the initial state, and descend
into an existing preview -/

theorem updatePreview_dir_ok (rd : Reader) (m : Model) (c : Column) (e : Entry)
    (es : List Entry) (hc : m.columns[m.activeCol]? = some c)
    (he : c.Entries[c.Cursor]? = some e) (hd : e.IsDir = true) (hr : rd e.Path = .ok es) :
    updatePreview rd m =
      { m with columns := m.columns.take (m.activeCol + 1) ++ [⟨e.Path, es, 0, 0⟩] } := by
  have hlt : m.activeCol < m.columns.length := (List.getElem?_eq_some_iff.mp hc).1
  have hl := loadColumn_ok rd m e.Path (m.activeCol + 1) es hr (by omega)
  simp [updatePreview, hc, he, hd, hl]

theorem set_then_preview (rd : Reader) (m : Model) (col c2 : Column) (e : Entry)
    (es : List Entry) (hc : m.columns[m.activeCol]? = some col)
    (hP : c2.Path = col.Path) (hE : c2.Entries = col.Entries)
    (he : c2.Entries[c2.Cursor]? = some e) (hd : e.IsDir = true) (hr : rd e.Path = .ok es) :
    (updatePreview rd { m with columns := m.columns.set m.activeCol c2 }).columns.length
        = m.activeCol + 2 ∧
      (∀ i, i ≤ m.activeCol → ∃ c c3, m.columns[i]? = some c ∧
        (updatePreview rd { m with columns := m.columns.set m.activeCol c2 }).columns[i]?
          = some c3 ∧ c3.Path = c.Path ∧ c3.Entries = c.Entries) ∧
      (updatePreview rd { m with columns := m.columns.set m.activeCol c2 }).columns[m.activeCol + 1]?
        = some ⟨e.Path, es, 0, 0⟩ := by
  have hlt : m.activeCol < m.columns.length := (List.getElem?_eq_some_iff.mp hc).1
  have hset : (m.columns.set m.activeCol c2)[m.activeCol]? = some c2 :=
    List.getElem?_set_self hlt
  rw [updatePreview_dir_ok rd _ c2 e es hset he hd hr]
  simp only []
  have hlen : ((m.columns.set m.activeCol c2).take (m.activeCol + 1)).length
      = m.activeCol + 1 := by
    simp only [List.length_take, List.length_set]; omega
  refine ⟨by rw [List.length_append, hlen]; rfl, ?_, ?_⟩
  · intro i hi
    rw [List.getElem?_append_left (by omega), List.getElem?_take_of_lt (by omega)]
    by_cases hia : i = m.activeCol
    · subst hia
      exact ⟨col, c2, hc, hset, hP, hE⟩
    · have hil : i < m.columns.length := by omega
      rw [List.getElem?_set_ne (by omega)]
      exact ⟨m.columns[i], m.columns[i], List.getElem?_eq_getElem hil,
        List.getElem?_eq_getElem hil, rfl, rfl⟩
  · rw [List.getElem?_append_right (by omega), hlen]
    simp

/-- C8: for every state whose active column exists, when a cursor-up
(`up = true`) or cursor-down (`up = false`) actually moves the cursor and the
newly selected entry is a directory that the reader reads successfully, the
resulting stack has exactly `active+2` columns, columns `0..active` keep
their paths and entries, and column `active+1` has the path of the newly
selected entry, the entries of the reader for it, cursor 0 and scroll 0,
whatever stood at `active+1` before. -/
theorem cursor_move_loads_preview (rd : Reader) (m : Model) (col : Column) (e : Entry)
    (es : List Entry) (up : Bool)
    (hc : m.columns[m.activeCol]? = some col)
    (hmove : if up then col.Cursor > 0
      else (col.Cursor : Int) < (col.Entries.length : Int) - 1)
    (he : col.Entries[if up then col.Cursor - 1 else col.Cursor + 1]? = some e)
    (hd : e.IsDir = true) (hr : rd e.Path = .ok es) :
    (if up then moveCursorUp rd m else moveCursorDown rd m).columns.length
        = m.activeCol + 2 ∧
      (∀ i, i ≤ m.activeCol → ∃ c c3, m.columns[i]? = some c ∧
        (if up then moveCursorUp rd m else moveCursorDown rd m).columns[i]? = some c3 ∧
          c3.Path = c.Path ∧ c3.Entries = c.Entries) ∧
      (if up then moveCursorUp rd m else moveCursorDown rd m).columns[m.activeCol + 1]?
        = some ⟨e.Path, es, 0, 0⟩ := by
  cases up with
  | true =>
    simp only [if_true] at hmove he ⊢
    obtain ⟨hP, hE, hC⟩ := cursorUpCol_fields col
    rw [moveCursorUp_eq rd m col hc hmove]
    exact set_then_preview rd m col _ e es hc hP hE (by rw [hE, hC]; exact he) hd hr
  | false =>
    simp only [Bool.false_eq_true, if_false] at hmove he ⊢
    obtain ⟨hP, hE, hC⟩ := cursorDownCol_fields col
    rw [moveCursorDown_eq rd m col hc hmove]
    exact set_then_preview rd m col _ e es hc hP hE (by rw [hE, hC]; exact he) hd hr

theorem cursor_move_loads_preview_witness :
    (if true then moveCursorUp rdDemo demoOnB else moveCursorDown rdDemo demoOnB).columns.length
        = demoOnB.activeCol + 2 ∧
      (∀ i, i ≤ demoOnB.activeCol → ∃ c c3, demoOnB.columns[i]? = some c ∧
        (if true then moveCursorUp rdDemo demoOnB
          else moveCursorDown rdDemo demoOnB).columns[i]? = some c3 ∧
          c3.Path = c.Path ∧ c3.Entries = c.Entries) ∧
      (if true then moveCursorUp rdDemo demoOnB
        else moveCursorDown rdDemo demoOnB).columns[demoOnB.activeCol + 1]?
        = some ⟨(mkEntry "a" "/r/a" true).Path, demoA, 0, 0⟩ :=
  cursor_move_loads_preview rdDemo demoOnB ⟨"/r", demoRoot, 1, 0⟩
    (mkEntry "a" "/r/a" true) demoA true (by decide) (by decide) (by decide) rfl rfl

/-- The claim C9 as stated fails: the root `/r` is read successfully, its
first entry `a` is a directory that is read successfully, and yet the state
built by `NewModel` has no column 1. -/
theorem newModel_preview_counterexample :
    rdDemo "/r" = .ok demoRoot ∧ demoRoot[0]? = some (mkEntry "a" "/r/a" true) ∧
      (mkEntry "a" "/r/a" true).IsDir = true ∧ rdDemo "/r/a" = .ok demoA ∧
      ¬ (∃ c, (NewModel rdDemo "/r").columns[1]? = some c) := by
  refine ⟨rfl, rfl, rfl, rfl, ?_⟩
  intro h
  obtain ⟨c, hc⟩ := h
  have : (NewModel rdDemo "/r").columns[1]? = none := by decide
  rw [this] at hc
  cases hc

/-- C9, amended: for every root path whose listing is read successfully
(whether or not its first entry is a readable directory), the initial state
built by `NewModel` has active index 0, an empty breadcrumb, no error, and
exactly one column, the root listing with cursor 0 and scroll 0; there is no
column 1, because `NewModel` runs no preview refresh. -/
theorem newModel_loads_root_only (rd : Reader) (rootPath : String) (es : List Entry)
    (h : rd rootPath = .ok es) :
    (NewModel rd rootPath).activeCol = 0 ∧
      (NewModel rd rootPath).pathParts = [] ∧
      (NewModel rd rootPath).err = none ∧
      (NewModel rd rootPath).columns = [⟨rootPath, es, 0, 0⟩] ∧
      (NewModel rd rootPath).columns[1]? = none := by
  rcases newModel_cases rd rootPath with ⟨msg, hr, _⟩ | ⟨es2, hr, he⟩
  · rw [h] at hr; cases hr
  · rw [h] at hr
    injection hr with hr
    subst hr
    rw [he]
    exact ⟨rfl, rfl, rfl, rfl, rfl⟩

theorem newModel_loads_root_only_witness :
    (NewModel rdDemo "/r").activeCol = 0 ∧
      (NewModel rdDemo "/r").pathParts = [] ∧
      (NewModel rdDemo "/r").err = none ∧
      (NewModel rdDemo "/r").columns = [⟨"/r", demoRoot, 0, 0⟩] ∧
      (NewModel rdDemo "/r").columns[1]? = none :=
  newModel_loads_root_only rdDemo "/r" demoRoot rfl

theorem updatePreview_below (rd : Reader) (m : Model) (i : Nat) (hi : i ≤ m.activeCol) :
    (updatePreview rd m).columns[i]? = m.columns[i]? := by
  rcases updatePreview_cases rd m with ⟨_, he⟩ | ⟨c, e, hc, _, h1 | h2 | h3⟩
  · rw [he]
  · rw [h1.2]
    exact List.getElem?_take_of_lt (by omega)
  · obtain ⟨_, msg, _, he⟩ := h2
    rw [he]
  · obtain ⟨_, es, _, he⟩ := h3
    have hlt : m.activeCol < m.columns.length := (List.getElem?_eq_some_iff.mp hc).1
    rw [he]
    simp only []
    rw [List.getElem?_append_left (by simp only [List.length_take]; omega),
      List.getElem?_take_of_lt (by omega)]

theorem updatePreview_congr (rd rd2 : Reader) (m : Model)
    (h : ∀ e, selected m = some e → rd2 e.Path = rd e.Path) :
    updatePreview rd2 m = updatePreview rd m := by
  unfold selected at h
  cases hc : m.columns[m.activeCol]? with
  | none => simp [updatePreview, hc]
  | some col =>
    cases he : col.Entries[col.Cursor]? with
    | none => simp [updatePreview, hc, he]
    | some e =>
      have hr := h e (by simp [hc, he])
      simp [updatePreview, hc, he, loadColumn, hr]

/-- C10: for every state whose active selection is a directory and in which
a column already exists at `active+1`, descend yields active index
`active+1` and the breadcrumb with the name of the selected entry appended,
and leaves columns `0..active+1` exactly as they were (the existing preview
column is reused unchanged).  These three results are the same for every
reader.  The selected directory is not read: the whole result is the preview
refresh of the advanced state, so it depends on the reader only through its
answer for the entry selected in the reused column. -/
theorem descend_reuses_preview (rd : Reader) (m : Model) (e : Entry) (nxt : Column)
    (hs : selected m = some e) (hd : e.IsDir = true)
    (hn : m.columns[m.activeCol + 1]? = some nxt) :
    (navigateDown rd m).activeCol = m.activeCol + 1 ∧
      (navigateDown rd m).pathParts = m.pathParts ++ [e.Name] ∧
      (∀ i, i ≤ m.activeCol + 1 → (navigateDown rd m).columns[i]? = m.columns[i]?) ∧
      navigateDown rd m =
        updatePreview rd
          { m with activeCol := m.activeCol + 1, pathParts := m.pathParts ++ [e.Name] } ∧
      (∀ rd2 : Reader,
        (navigateDown rd2 m).activeCol = (navigateDown rd m).activeCol ∧
        (navigateDown rd2 m).pathParts = (navigateDown rd m).pathParts ∧
        ∀ i, i ≤ m.activeCol + 1 →
          (navigateDown rd2 m).columns[i]? = (navigateDown rd m).columns[i]?) ∧
      (∀ rd2 : Reader,
        (∀ e2, nxt.Entries[nxt.Cursor]? = some e2 → rd2 e2.Path = rd e2.Path) →
          navigateDown rd2 m = navigateDown rd m) := by
  unfold selected at hs
  cases hc : m.columns[m.activeCol]? with
  | none => rw [hc] at hs; cases hs
  | some col =>
    rw [hc] at hs
    simp only [] at hs
    have hp : m.activeCol + 1 < m.columns.length := (List.getElem?_eq_some_iff.mp hn).1
    have heq := fun r => navigateDown_reuse r m col e hc hs hd hp
    have hcols : ∀ r : Reader, ∀ i, i ≤ m.activeCol + 1 →
        (navigateDown r m).columns[i]? = m.columns[i]? := by
      intro r i hi
      rw [heq r]
      exact updatePreview_below r _ i hi
    refine ⟨?_, ?_, hcols rd, heq rd, ?_, ?_⟩
    · rw [heq rd]; exact (updatePreview_frame rd _).1
    · rw [heq rd]; exact (updatePreview_frame rd _).2
    · intro rd2
      refine ⟨?_, ?_, ?_⟩
      · rw [heq rd, heq rd2, (updatePreview_frame rd _).1, (updatePreview_frame rd2 _).1]
      · rw [heq rd, heq rd2, (updatePreview_frame rd _).2, (updatePreview_frame rd2 _).2]
      · intro i hi
        rw [hcols rd i hi, hcols rd2 i hi]
    · intro rd2 h2
      rw [heq rd, heq rd2]
      apply updatePreview_congr
      intro e2 he2
      apply h2
      simpa [selected, hn] using he2

theorem descend_reuses_preview_witness :
    (navigateDown rdDemo demoPreview).activeCol = demoPreview.activeCol + 1 ∧
      (navigateDown rdDemo demoPreview).pathParts
        = demoPreview.pathParts ++ [(mkEntry "a" "/r/a" true).Name] ∧
      (∀ i, i ≤ demoPreview.activeCol + 1 →
        (navigateDown rdDemo demoPreview).columns[i]? = demoPreview.columns[i]?) ∧
      navigateDown rdDemo demoPreview =
        updatePreview rdDemo
          { demoPreview with activeCol := demoPreview.activeCol + 1,
                             pathParts := demoPreview.pathParts ++ [(mkEntry "a" "/r/a" true).Name] } ∧
      (∀ rd2 : Reader,
        (navigateDown rd2 demoPreview).activeCol = (navigateDown rdDemo demoPreview).activeCol ∧
        (navigateDown rd2 demoPreview).pathParts = (navigateDown rdDemo demoPreview).pathParts ∧
        ∀ i, i ≤ demoPreview.activeCol + 1 →
          (navigateDown rd2 demoPreview).columns[i]?
            = (navigateDown rdDemo demoPreview).columns[i]?) ∧
      (∀ rd2 : Reader,
        (∀ e2, (Column.mk "/r/a" demoA 0 0).Entries[(Column.mk "/r/a" demoA 0 0).Cursor]? = some e2 →
          rd2 e2.Path = rdDemo e2.Path) →
          navigateDown rd2 demoPreview = navigateDown rdDemo demoPreview) :=
  descend_reuses_preview rdDemo demoPreview (mkEntry "a" "/r/a" true) ⟨"/r/a", demoA, 0, 0⟩
    (by decide) rfl (by decide)

/-! ## Ascend, and cursor moves at the ends of a column -/

/-- The claim C11 as stated fails: inside `/r/a` (active index 1) an ascend
returns to active index 0 with an empty breadcrumb, but the preview refresh
that ends `navigateUp` loads `a` again, so the stack has two columns and a
column stands to the right of the new active one.  And in a state with
active index 1 and no column at all, the slice `m.columns[:m.activeCol+1]`
is out of range. -/
theorem ascend_preview_counterexample :
    0 < demoIn.activeCol ∧
      navigateUp rdDemo demoIn =
        some { demoInit with columns := demoInit.columns ++ [⟨"/r/a", demoA, 0, 0⟩] } ∧
      ¬ (∀ m2, navigateUp rdDemo demoIn = some m2 → m2.columns.length = 1) ∧
      navigateUp rdDemo { demoInit with columns := [], activeCol := 1 } = none := by
  refine ⟨by decide, by decide, ?_, by decide⟩
  intro h
  have h2 := h _ (by decide :
    navigateUp rdDemo demoIn =
      some { demoInit with columns := demoInit.columns ++ [⟨"/r/a", demoA, 0, 0⟩] })
  revert h2
  decide

/-- C11, amended: for every state with `0 < active <= len(columns)`, ascend
succeeds and yields active index `active-1`, the breadcrumb with its last
name removed, and a stack whose columns `0..active-1` are those of the old
stack, followed by at most one column.  That column is the preview that the
closing `updatePreview` loads: when the entry selected in the new active
column is a directory that the reader reads, the stack is the old columns
`0..active-1` plus a fresh column for it (cursor 0, scroll 0); when every
selected directory fails to read, or the selection is a file or absent,
nothing remains to the right of the new active column. -/
theorem ascend_truncates_then_previews (rd : Reader) (m : Model)
    (h0 : 0 < m.activeCol) (hl : m.activeCol ≤ m.columns.length) :
    ∃ m2, navigateUp rd m = some m2 ∧
      m2.activeCol = m.activeCol - 1 ∧
      m2.pathParts = m.pathParts.dropLast ∧
      (∀ i, i < m.activeCol → m2.columns[i]? = m.columns[i]?) ∧
      m.activeCol ≤ m2.columns.length ∧ m2.columns.length ≤ m.activeCol + 1 ∧
      (∀ c e es, m.columns[m.activeCol - 1]? = some c → c.Entries[c.Cursor]? = some e →
        e.IsDir = true → rd e.Path = .ok es →
          m2.columns = m.columns.take m.activeCol ++ [⟨e.Path, es, 0, 0⟩]) ∧
      ((∀ c e es, m.columns[m.activeCol - 1]? = some c → c.Entries[c.Cursor]? = some e →
        e.IsDir = true → rd e.Path ≠ .ok es) →
          m2.columns = m.columns.take m.activeCol) := by
  refine ⟨_, navigateUp_eq rd m h0 hl, ?_, ?_, ?_, ?_, ?_, ?_, ?_⟩
  · rw [(updatePreview_frame rd _).1]
  · rw [(updatePreview_frame rd _).2, List.dropLast_eq_take]
  · intro i hi
    rw [updatePreview_below rd _ i (by simp only []; omega)]
    exact List.getElem?_take_of_lt hi
  · have := updatePreview_length_ge rd
      { m with activeCol := m.activeCol - 1, columns := m.columns.take m.activeCol,
               pathParts := m.pathParts.take (m.pathParts.length - 1) }
    simp only [List.length_take] at this
    omega
  · rcases updatePreview_cases rd
      { m with activeCol := m.activeCol - 1, columns := m.columns.take m.activeCol,
               pathParts := m.pathParts.take (m.pathParts.length - 1) }
      with ⟨_, he⟩ | ⟨c, e, _, _, h1 | h2 | h3⟩
    · rw [he]; simp only [List.length_take]; omega
    · rw [h1.2]; simp only [List.length_take]; omega
    · obtain ⟨_, msg, _, he⟩ := h2
      rw [he]; simp only [List.length_take]; omega
    · obtain ⟨_, es, _, he⟩ := h3
      rw [he]
      simp only [List.length_append, List.length_take, List.length_singleton]; omega
  · intro c e es hc he hd hr
    have hc2 : (m.columns.take m.activeCol)[m.activeCol - 1]? = some c := by
      rw [List.getElem?_take_of_lt (by omega)]; exact hc
    rw [updatePreview_dir_ok rd _ c e es hc2 he hd hr]
    simp only []
    have : m.activeCol - 1 + 1 = m.activeCol := by omega
    rw [this, List.take_take, Nat.min_self]
  · intro hno
    rcases updatePreview_cases rd
      { m with activeCol := m.activeCol - 1, columns := m.columns.take m.activeCol,
               pathParts := m.pathParts.take (m.pathParts.length - 1) }
      with ⟨_, he⟩ | ⟨c, e, hc, hce, h1 | h2 | h3⟩
    · rw [he]
    · rw [h1.2]
      simp only []
      have : m.activeCol - 1 + 1 = m.activeCol := by omega
      rw [this, List.take_take, Nat.min_self]
    · obtain ⟨_, msg, _, he⟩ := h2
      rw [he]
    · obtain ⟨hd, es, hr, _⟩ := h3
      simp only [] at hc
      rw [List.getElem?_take_of_lt (by omega)] at hc
      exact absurd hr (hno c e es hc hce hd)

theorem ascend_truncates_then_previews_witness :
    ∃ m2, navigateUp rdDemo demoIn = some m2 ∧
      m2.activeCol = demoIn.activeCol - 1 ∧
      m2.pathParts = demoIn.pathParts.dropLast ∧
      (∀ i, i < demoIn.activeCol → m2.columns[i]? = demoIn.columns[i]?) ∧
      demoIn.activeCol ≤ m2.columns.length ∧ m2.columns.length ≤ demoIn.activeCol + 1 ∧
      (∀ c e es, demoIn.columns[demoIn.activeCol - 1]? = some c →
        c.Entries[c.Cursor]? = some e → e.IsDir = true → rdDemo e.Path = .ok es →
          m2.columns = demoIn.columns.take demoIn.activeCol ++ [⟨e.Path, es, 0, 0⟩]) ∧
      ((∀ c e es, demoIn.columns[demoIn.activeCol - 1]? = some c →
        c.Entries[c.Cursor]? = some e → e.IsDir = true → rdDemo e.Path ≠ .ok es) →
          m2.columns = demoIn.columns.take demoIn.activeCol) :=
  ascend_truncates_then_previews rdDemo demoIn (by decide) (by decide)

/-- C12: for every state in which the cursor of the active column is on its
last entry, or the active column is empty, cursor-down (`up = false`) leaves
the entire state unchanged, and so does any number `n` of repetitions;
likewise cursor-up (`up = true`) with cursor 0.  There is no wraparound. -/
theorem cursor_boundary_noop (rd : Reader) (m : Model) (col : Column) (up : Bool)
    (hc : m.columns[m.activeCol]? = some col)
    (hb : if up then col.Cursor = 0
      else (col.Entries = [] ∨ col.Cursor + 1 = col.Entries.length))
    (n : Nat) :
    (if up then moveCursorUp rd else moveCursorDown rd)^[n] m = m := by
  apply Function.iterate_fixed
  cases up with
  | true =>
    simp only [if_true] at hb ⊢
    simp [moveCursorUp, hc, hb]
  | false =>
    simp only [Bool.false_eq_true, if_false] at hb ⊢
    have hnot : ¬ ((col.Cursor : Int) < (col.Entries.length : Int) - 1) := by
      rcases hb with hb | hb
      · rw [hb]; simp; omega
      · omega
    simp [moveCursorDown, hc, hnot]

theorem cursor_boundary_noop_witness :
    (if false then moveCursorUp rdDemo else moveCursorDown rdDemo)^[3] demoFile = demoFile :=
  cursor_boundary_noop rdDemo demoFile ⟨"/r", demoRoot, 2, 0⟩ false (by decide)
    (by decide) 3

/-! ## The checked transitions agree with the transitions -/

theorem loadColumnChecked_eq (rd : Reader) (m : Model) (path : String) (colIdx : Nat) :
    loadColumnChecked rd m path colIdx = some (loadColumn rd m path colIdx) := by
  unfold loadColumnChecked loadColumn
  cases rd path with
  | error msg => rfl
  | ok es =>
    by_cases hge : colIdx ≥ m.columns.length
    · simp [hge]
    · have hle : colIdx ≤ m.columns.length := by omega
      simp [hge, sliceTo, hle]

theorem updatePreviewChecked_eq (rd : Reader) (m : Model) :
    updatePreviewChecked rd m = some (updatePreview rd m) := by
  unfold updatePreviewChecked updatePreview
  by_cases hge : m.activeCol ≥ m.columns.length
  · have : m.columns[m.activeCol]? = none := List.getElem?_eq_none hge
    simp [hge, this]
  · have hlt : m.activeCol < m.columns.length := by omega
    simp only [hge, if_false, indexAt, List.getElem?_eq_getElem hlt, Option.some_bind]
    by_cases hcur : m.columns[m.activeCol].Cursor ≥ m.columns[m.activeCol].Entries.length
    · have : m.columns[m.activeCol].Entries[m.columns[m.activeCol].Cursor]? = none :=
        List.getElem?_eq_none hcur
      simp [hcur, this]
    · have hlt2 : m.columns[m.activeCol].Cursor < m.columns[m.activeCol].Entries.length := by
        omega
      simp only [hcur, if_false, List.getElem?_eq_getElem hlt2, Option.some_bind]
      split
      · split
        · rename_i h1
          have : m.activeCol + 1 ≤ m.columns.length := by omega
          simp [sliceTo, this]
        · rfl
      · exact loadColumnChecked_eq rd m _ _

theorem moveCursorUpChecked_eq (rd : Reader) (m : Model) :
    moveCursorUpChecked rd m = some (moveCursorUp rd m) := by
  unfold moveCursorUpChecked
  by_cases hge : m.activeCol ≥ m.columns.length
  · have : m.columns[m.activeCol]? = none := List.getElem?_eq_none hge
    simp [hge, moveCursorUp, this]
  · have hlt : m.activeCol < m.columns.length := by omega
    have hc := List.getElem?_eq_getElem hlt
    simp only [hge, if_false, indexAt, hc, Option.some_bind]
    by_cases hpos : m.columns[m.activeCol].Cursor > 0
    · simp only [hpos, if_true, updatePreviewChecked_eq]
      rw [moveCursorUp_eq rd m _ hc hpos]
    · simp [hpos, moveCursorUp, hc]

theorem moveCursorDownChecked_eq (rd : Reader) (m : Model) :
    moveCursorDownChecked rd m = some (moveCursorDown rd m) := by
  unfold moveCursorDownChecked
  by_cases hge : m.activeCol ≥ m.columns.length
  · have : m.columns[m.activeCol]? = none := List.getElem?_eq_none hge
    simp [hge, moveCursorDown, this]
  · have hlt : m.activeCol < m.columns.length := by omega
    have hc := List.getElem?_eq_getElem hlt
    simp only [hge, if_false, indexAt, hc, Option.some_bind]
    by_cases hmv : (m.columns[m.activeCol].Cursor : Int)
        < (m.columns[m.activeCol].Entries.length : Int) - 1
    · simp only [hmv, if_true, updatePreviewChecked_eq]
      rw [moveCursorDown_eq rd m _ hc hmv]
    · simp [hmv, moveCursorDown, hc]

theorem navigateDownChecked_eq (rd : Reader) (m : Model) :
    navigateDownChecked rd m = some (navigateDown rd m) := by
  unfold navigateDownChecked navigateDown
  by_cases hge : m.activeCol ≥ m.columns.length
  · have : m.columns[m.activeCol]? = none := List.getElem?_eq_none hge
    simp [hge, this]
  · have hlt : m.activeCol < m.columns.length := by omega
    simp only [hge, if_false, indexAt, List.getElem?_eq_getElem hlt, Option.some_bind]
    by_cases hcur : m.columns[m.activeCol].Cursor ≥ m.columns[m.activeCol].Entries.length
    · have : m.columns[m.activeCol].Entries[m.columns[m.activeCol].Cursor]? = none :=
        List.getElem?_eq_none hcur
      simp [hcur, this]
    · have hlt2 : m.columns[m.activeCol].Cursor < m.columns[m.activeCol].Entries.length := by
        omega
      simp only [hcur, if_false, List.getElem?_eq_getElem hlt2, Option.some_bind]
      split
      · rfl
      · split
        · simp only [Option.some_bind, updatePreviewChecked_eq]
        · simp only [loadColumnChecked_eq, Option.map_some', Option.some_bind,
            updatePreviewChecked_eq]

theorem navigateUpChecked_eq (rd : Reader) (m : Model) :
    navigateUpChecked rd m = navigateUp rd m := by
  unfold navigateUpChecked navigateUp
  by_cases h0 : m.activeCol > 0
  · simp only [h0, if_true]
    by_cases hl : m.activeCol - 1 + 1 ≤ m.columns.length
    · simp only [sliceTo, hl, if_true, Option.some_bind]
      split
      · have : m.pathParts.length - 1 ≤ m.pathParts.length := by omega
        simp only [this, if_true, Option.some_bind, updatePreviewChecked_eq]
      · simp only [updatePreviewChecked_eq]
    · simp [sliceTo, hl]
  · simp [h0]

theorem stepChecked_eq (rd : Reader) (ev : Event) (m : Model) :
    stepChecked rd ev m = step rd ev m := by
  cases ev with
  | cursorUp => exact moveCursorUpChecked_eq rd m
  | cursorDown => exact moveCursorDownChecked_eq rd m
  | descend => exact navigateDownChecked_eq rd m
  | ascend => exact navigateUpChecked_eq rd m

/-! ## The shape of the stack: active index, number of columns, breadcrumb -/

theorem updatePreview_shape (rd : Reader) (m : Model)
    (h1 : m.activeCol ≤ m.columns.length) (h2 : m.columns.length ≤ m.activeCol + 2)
    (h3 : m.pathParts.length = m.activeCol) :
    (updatePreview rd m).activeCol ≤ (updatePreview rd m).columns.length ∧
      (updatePreview rd m).columns.length ≤ (updatePreview rd m).activeCol + 2 ∧
      (updatePreview rd m).pathParts.length = (updatePreview rd m).activeCol := by
  rcases updatePreview_cases rd m with ⟨_, he⟩ | ⟨c, e, hc, _, k1 | k2 | k3⟩
  · rw [he]; exact ⟨h1, h2, h3⟩
  · have hlt : m.activeCol < m.columns.length := (List.getElem?_eq_some_iff.mp hc).1
    rw [k1.2]
    simp only [List.length_take]
    omega
  · obtain ⟨_, msg, _, he⟩ := k2
    rw [he]; exact ⟨h1, h2, h3⟩
  · obtain ⟨_, es, _, he⟩ := k3
    have hlt : m.activeCol < m.columns.length := (List.getElem?_eq_some_iff.mp hc).1
    rw [he]
    simp only [List.length_append, List.length_take, List.length_singleton]
    omega

theorem navigateDown_shape (rd : Reader) (m : Model)
    (h1 : m.activeCol ≤ m.columns.length) (h2 : m.columns.length ≤ m.activeCol + 2)
    (h3 : m.pathParts.length = m.activeCol) :
    (navigateDown rd m).activeCol ≤ (navigateDown rd m).columns.length ∧
      (navigateDown rd m).columns.length ≤ (navigateDown rd m).activeCol + 2 ∧
      (navigateDown rd m).pathParts.length = (navigateDown rd m).activeCol := by
  cases hc : m.columns[m.activeCol]? with
  | none => simpa [navigateDown, hc] using ⟨h1, h2, h3⟩
  | some col =>
    cases he : col.Entries[col.Cursor]? with
    | none => simpa [navigateDown, hc, he] using ⟨h1, h2, h3⟩
    | some e =>
      cases hd : e.IsDir with
      | false => simpa [navigateDown, hc, he, hd] using ⟨h1, h2, h3⟩
      | true =>
        have hlt : m.activeCol < m.columns.length := (List.getElem?_eq_some_iff.mp hc).1
        by_cases hp : m.activeCol + 1 < m.columns.length
        · rw [navigateDown_reuse rd m col e hc he hd hp]
          apply updatePreview_shape
          · simp only []; omega
          · simp only []; omega
          · simp only [List.length_append, List.length_singleton]; omega
        · cases hr : rd e.Path with
          | error msg =>
            rw [navigateDown_load_error rd m col e msg hc he hd hp hr]
            apply updatePreview_shape
            · simp only []; omega
            · simp only []; omega
            · simp only [List.length_append, List.length_singleton]; omega
          | ok es =>
            rw [navigateDown_load_ok rd m col e es hc he hd hp hr]
            apply updatePreview_shape
            · simp only [List.length_append, List.length_take, List.length_singleton]; omega
            · simp only [List.length_append, List.length_take, List.length_singleton]; omega
            · simp only [List.length_append, List.length_singleton]; omega

theorem step_shape (rd : Reader) (ev : Event) (m m2 : Model) (hs : step rd ev m = some m2)
    (h1 : m.activeCol ≤ m.columns.length) (h2 : m.columns.length ≤ m.activeCol + 2)
    (h3 : m.pathParts.length = m.activeCol) :
    m2.activeCol ≤ m2.columns.length ∧ m2.columns.length ≤ m2.activeCol + 2 ∧
      m2.pathParts.length = m2.activeCol := by
  cases ev with
  | cursorUp =>
    injection hs with hs
    rw [← hs]
    rcases moveCursorUp_cases rd m with he | ⟨col, _, _, he⟩
    · rw [he]; exact ⟨h1, h2, h3⟩
    · rw [he]
      apply updatePreview_shape
      · simp only [List.length_set]; exact h1
      · simp only [List.length_set]; exact h2
      · exact h3
  | cursorDown =>
    injection hs with hs
    rw [← hs]
    rcases moveCursorDown_cases rd m with he | ⟨col, _, _, he⟩
    · rw [he]; exact ⟨h1, h2, h3⟩
    · rw [he]
      apply updatePreview_shape
      · simp only [List.length_set]; exact h1
      · simp only [List.length_set]; exact h2
      · exact h3
  | descend =>
    injection hs with hs
    rw [← hs]
    exact navigateDown_shape rd m h1 h2 h3
  | ascend =>
    rcases navigateUp_cases rd m m2 hs with ⟨_, he⟩ | ⟨h0, hl, he⟩
    · rw [he]; exact ⟨h1, h2, h3⟩
    · rw [he]
      apply updatePreview_shape
      · simp only [List.length_take]; omega
      · simp only [List.length_take]; omega
      · simp only [List.length_take]; omega

theorem reachable_shape (m : Model) (h : Reachable m) :
    m.activeCol ≤ m.columns.length ∧ m.columns.length ≤ m.activeCol + 2 ∧
      m.pathParts.length = m.activeCol := by
  induction h with
  | init rd root =>
    rcases newModel_cases rd root with ⟨msg, _, he⟩ | ⟨es, _, he⟩
    · rw [he]; simp
    · rw [he]; simp
  | next rd ev _ hs ih => exact step_shape rd ev _ _ hs ih.1 ih.2.1 ih.2.2

/-- C15: in every state reachable from `NewModel` by cursor-up, cursor-down,
descend and ascend events, whatever the reader answers at each read (the
root read included), `active <= len(columns)`, and every transition, run
with each index and slice expression (`columns[active]`, `Entries[Cursor]`,
`columns[:active+1]`, `columns[:colIdx]`, `pathParts[:len-1]`) checked
against its bounds, succeeds: none is out of range.  The checked transition
yields the state of the plain transition. -/
theorem reachable_transitions_in_bounds (m : Model) (h : Reachable m) (rd : Reader)
    (ev : Event) :
    m.activeCol ≤ m.columns.length ∧
      ∃ m2, stepChecked rd ev m = some m2 ∧ step rd ev m = some m2 ∧ Reachable m2 := by
  have hsh := reachable_shape m h
  refine ⟨hsh.1, ?_⟩
  have hstep : ∃ m2, step rd ev m = some m2 := by
    cases ev with
    | cursorUp => exact ⟨_, rfl⟩
    | cursorDown => exact ⟨_, rfl⟩
    | descend => exact ⟨_, rfl⟩
    | ascend =>
      by_cases h0 : m.activeCol > 0
      · exact ⟨_, navigateUp_eq rd m h0 hsh.1⟩
      · exact ⟨m, by simp [step, navigateUp, h0]⟩
  obtain ⟨m2, hm2⟩ := hstep
  exact ⟨m2, by rw [stepChecked_eq]; exact hm2, hm2, Reachable.next rd ev h hm2⟩

theorem reachable_transitions_in_bounds_witness :
    (navigateDown rdDenied demoDenied).activeCol
        ≤ (navigateDown rdDenied demoDenied).columns.length ∧
      ∃ m2, stepChecked rdDenied .ascend (navigateDown rdDenied demoDenied) = some m2 ∧
        step rdDenied .ascend (navigateDown rdDenied demoDenied) = some m2 ∧ Reachable m2 :=
  reachable_transitions_in_bounds (navigateDown rdDenied demoDenied)
    (Reachable.next rdDenied .descend (Reachable.init rdDenied "/q") rfl) rdDenied .ascend

/-- C17: in every state reachable from `NewModel` by cursor-up, cursor-down,
descend and ascend events, the stack holds at most `active + 2` columns,
however many descend and ascend events came before. -/
theorem reachable_stack_bounded (m : Model) (h : Reachable m) :
    m.columns.length ≤ m.activeCol + 2 :=
  (reachable_shape m h).2.1

theorem reachable_stack_bounded_witness :
    demoStale.columns.length ≤ demoStale.activeCol + 2 :=
  reachable_stack_bounded demoStale
    (reachable_of_run
      [(rdDemo, .cursorDown), (rdDemo, .cursorUp), (rdDemo, .cursorDown), (rdDemo, .descend)]
      demoInit demoStale (Reachable.init rdDemo "/r") rfl)

/-- C18: in every state reachable from `NewModel` by cursor-up, cursor-down,
descend and ascend events, whatever the reader answers (failed loads
included), the breadcrumb has exactly as many names as the active index:
`len(pathParts) = activeCol`. -/
theorem reachable_breadcrumb_length (m : Model) (h : Reachable m) :
    m.pathParts.length = m.activeCol :=
  (reachable_shape m h).2.2

theorem reachable_breadcrumb_length_witness :
    (navigateDown rdDenied demoDenied).pathParts.length
      = (navigateDown rdDenied demoDenied).activeCol :=
  reachable_breadcrumb_length (navigateDown rdDenied demoDenied)
    (Reachable.next rdDenied .descend (Reachable.init rdDenied "/q") rfl)

/-! ## The error state is never cleared -/

theorem update_keeps_err (rd : Reader) (m : Model) (msg : Msg) (r : Model × Bool)
    (hu : Update rd m msg = some r) (herr : m.err ≠ none) : r.1.err ≠ none := by
  intro hnone
  apply herr
  cases msg with
  | WindowSizeMsg w h =>
    simp only [Update, Option.some.injEq] at hu
    rw [← hu] at hnone
    exact hnone
  | KeyMsg key =>
    simp only [Update] at hu
    split at hu
    · injection hu with hu
      rw [← hu] at hnone
      exact hnone
    · split at hu
      · injection hu with hu
        rw [← hu] at hnone
        exact step_err rd .cursorUp m _ rfl hnone
      · split at hu
        · injection hu with hu
          rw [← hu] at hnone
          exact step_err rd .cursorDown m _ rfl hnone
        · split at hu
          · cases hn : navigateUp rd m with
            | none => rw [hn] at hu; cases hu
            | some m2 =>
              rw [hn] at hu
              injection hu with hu
              rw [← hu] at hnone
              exact step_err rd .ascend m m2 hn hnone
          · split at hu
            · injection hu with hu
              rw [← hu] at hnone
              exact step_err rd .descend m _ rfl hnone
            · injection hu with hu
              rw [← hu] at hnone
              exact hnone

theorem runUpdate_keeps_err (msgs : List (Reader × Msg)) :
    ∀ (m m2 : Model), m.err ≠ none → runUpdate msgs m = some m2 → m2.err ≠ none := by
  induction msgs with
  | nil =>
    intro m m2 herr hr
    injection hr with hr
    rw [← hr]; exact herr
  | cons x rest ih =>
    intro m m2 herr hr
    obtain ⟨rd, msg⟩ := x
    simp only [runUpdate] at hr
    cases hu : Update rd m msg with
    | none => rw [hu] at hr; cases hr
    | some r =>
      rw [hu] at hr
      exact ih r.1 m2 (update_keeps_err rd m msg r hu herr) hr

/-- C16: once the error state is set (as a failed load sets it), no message
handled by `Update` clears it (cursor-up, cursor-down, descend, ascend, window
resize, or any other key): in every later state the error is non-nil, and
`View` of every later state that is not quitting is the error display, not
the columns. -/
theorem error_state_persists (render : Model → String) (msgs : List (Reader × Msg))
    (m m2 : Model) (herr : m.err ≠ none) (hrun : runUpdate msgs m = some m2) :
    m2.err ≠ none ∧
      (m2.quitting = false →
        ∃ e, m2.err = some e ∧ View render m2 = "Error: " ++ e ++ "\nPress q to quit.\n") := by
  have h2 := runUpdate_keeps_err msgs m m2 herr hrun
  refine ⟨h2, ?_⟩
  intro hq
  cases he : m2.err with
  | none => exact absurd he h2
  | some e => exact ⟨e, rfl, by simp [View, hq, he]⟩

theorem error_state_persists_witness :
    demoAfterKeys.err ≠ none ∧
      (demoAfterKeys.quitting = false →
        ∃ e, demoAfterKeys.err = some e ∧
          View (fun _ => "") demoAfterKeys = "Error: " ++ e ++ "\nPress q to quit.\n") :=
  error_state_persists (fun _ => "")
    [(rdDemo, .KeyMsg "up"), (rdDemo, .WindowSizeMsg 80 24), (rdDemo, .KeyMsg "right"),
      (rdDemo, .KeyMsg "left")] demoOnB demoAfterKeys (by decide) (by decide)

/-! ## The directory reader -/

theorem collectEntries_mem (join : String → String → String) (path : String)
    (des : List DirEntry) (e : Entry) (h : e ∈ collectEntries join path des) :
    ∃ d, d ∈ des ∧ keptByReadDir d = true ∧ e.Name = d.Name ∧
      e.Path = join path d.Name ∧ e.IsDir = d.IsDir := by
  unfold collectEntries at h
  obtain ⟨d, hd, hf⟩ := List.mem_filterMap.mp h
  refine ⟨d, hd, ?_⟩
  cases hh : isHidden d.Name with
  | true => simp [hh] at hf
  | false =>
    cases hi : d.Info with
    | error msg => simp [hh, hi] at hf
    | ok info =>
      simp only [hh, hi, Bool.false_eq_true, if_false, Option.some.injEq] at hf
      rw [← hf]
      simp [keptByReadDir, hh, hi]

theorem collectEntries_names (join : String → String → String) (path : String)
    (des : List DirEntry) :
    (collectEntries join path des).map (fun e => e.Name)
      = (des.filter keptByReadDir).map (fun d => d.Name) := by
  induction des with
  | nil => rfl
  | cons d rest ih =>
    unfold collectEntries at ih ⊢
    cases hh : isHidden d.Name with
    | true => simp [List.filterMap_cons, List.filter_cons, keptByReadDir, hh, ih]
    | false =>
      cases hi : d.Info with
      | error msg => simp [List.filterMap_cons, List.filter_cons, keptByReadDir, hh, hi, ih]
      | ok info => simp [List.filterMap_cons, List.filter_cons, keptByReadDir, hh, hi, ih]

theorem entryLess_false (a b : Entry) (h : entryLess b a = false) :
    (a.IsDir = true ∧ b.IsDir = false) ∨ (a.IsDir = b.IsDir ∧ ¬ b.Name < a.Name) := by
  unfold entryLess at h
  cases ha : a.IsDir <;> cases hb : b.IsDir <;> simp [ha, hb] at h ⊢ <;> exact h

theorem isHidden_false_iff (name : String) :
    isHidden name = false ↔ ¬ ∃ rest, name.data = '.' :: rest := by
  unfold isHidden
  cases hd : name.data with
  | nil => simp
  | cons c rest => simp

theorem readDir_ok (os : String → List DirEntry × Option String)
    (join : String → String → String)
    (sortSlice : (Entry → Entry → Bool) → List Entry → List Entry) (path : String)
    (hok : (os path).2 = none) :
    ReadDir os join sortSlice path
      = .ok (sortSlice entryLess (collectEntries join path (os path).1)) := by
  simp [ReadDir, hok]

/-- C13: for every directory listing that `os.ReadDir` returns without error,
and every `sort.Slice` that meets its contract, `ReadDir` returns a list that
contains no entry whose name begins with `.`, in which every directory
precedes every file and, among the directories and among the files, no name
is smaller than an earlier one (names ascend), and in which the path of
every entry is the directory path joined with its name. -/
theorem readDir_filters_and_sorts (os : String → List DirEntry × Option String)
    (join : String → String → String)
    (sortSlice : (Entry → Entry → Bool) → List Entry → List Entry) (path : String)
    (hsort : SortsEntries sortSlice) (hok : (os path).2 = none) :
    ∃ result, ReadDir os join sortSlice path = .ok result ∧
      (∀ e, e ∈ result → isHidden e.Name = false ∧ ¬ ∃ rest, e.Name.data = '.' :: rest) ∧
      result.Pairwise (fun a b =>
        (a.IsDir = true ∧ b.IsDir = false) ∨ (a.IsDir = b.IsDir ∧ ¬ b.Name < a.Name)) ∧
      (∀ e, e ∈ result → e.Path = join path e.Name) := by
  obtain ⟨hperm, hsorted⟩ := hsort (collectEntries join path (os path).1)
  refine ⟨_, readDir_ok os join sortSlice path hok, ?_, ?_, ?_⟩
  · intro e he
    obtain ⟨d, _, hk, hn, _, _⟩ := collectEntries_mem join path _ e (hperm.mem_iff.mp he)
    have hh : isHidden e.Name = false := by
      rw [hn]
      simp only [keptByReadDir, Bool.and_eq_true, Bool.not_eq_true'] at hk
      exact hk.1
    exact ⟨hh, (isHidden_false_iff e.Name).mp hh⟩
  · exact hsorted.imp (fun {a b} h => entryLess_false a b h)
  · intro e he
    obtain ⟨d, _, _, hn, hp, _⟩ := collectEntries_mem join path _ e (hperm.mem_iff.mp he)
    rw [hp, hn]

theorem demoSort_contract : SortsEntries demoSort := by
  intro l
  haveI : IsTotal Entry (fun a b => entryLess b a = false) := ⟨by
    intro a b
    unfold entryLess
    cases ha : a.IsDir <;> cases hb : b.IsDir <;> simp
    · exact le_total _ _
    · exact le_total _ _⟩
  haveI : IsTrans Entry (fun a b => entryLess b a = false) := ⟨by
    intro a b c
    unfold entryLess
    cases ha : a.IsDir <;> cases hb : b.IsDir <;> cases hc : c.IsDir <;> simp
    · intro h1 h2; exact le_trans h1 h2
    · intro h1 h2; exact le_trans h1 h2⟩
  exact ⟨List.perm_insertionSort _ l, List.sorted_insertionSort _ l⟩

theorem readDir_filters_and_sorts_witness :
    ∃ result, ReadDir demoOs demoJoin demoSort "/r" = .ok result ∧
      (∀ e, e ∈ result → isHidden e.Name = false ∧ ¬ ∃ rest, e.Name.data = '.' :: rest) ∧
      result.Pairwise (fun a b =>
        (a.IsDir = true ∧ b.IsDir = false) ∨ (a.IsDir = b.IsDir ∧ ¬ b.Name < a.Name)) ∧
      (∀ e, e ∈ result → e.Path = demoJoin "/r" e.Name) :=
  readDir_filters_and_sorts demoOs demoJoin demoSort "/r" demoSort_contract rfl

/-- The claim C14 as stated fails: the listing of `/r` is read without error
and holds the name `b`, which is not hidden, but `Info` fails for `b`;
`ReadDir` returns without error and its result has no entry named `b`. -/
theorem readDir_skips_unstattable_counterexample :
    (demoOs "/r").2 = none ∧
      (demoOs "/r").1.map (fun d => d.Name) = ["c.txt", ".git", "b", "a"] ∧
      isHidden "b" = false ∧
      ReadDir demoOs demoJoin demoSort "/r" =
        .ok [⟨"a", "/r/a", true, 0, 0, 493⟩, ⟨"c.txt", "/r/c.txt", false, 12, 0, 420⟩] ∧
      ¬ (∀ result, ReadDir demoOs demoJoin demoSort "/r" = .ok result →
          "b" ∈ result.map (fun e => e.Name)) := by
  refine ⟨rfl, rfl, rfl, rfl, ?_⟩
  intro h
  have h2 := h [⟨"a", "/r/a", true, 0, 0, 493⟩, ⟨"c.txt", "/r/c.txt", false, 12, 0, 420⟩] rfl
  revert h2
  decide

/-- C14, amended: `ReadDir` fails exactly when `os.ReadDir` reports an error,
and then returns no list at all, whatever entries had been read.  When the
listing succeeds, `ReadDir` returns without error a rearrangement of the
converted entries, with exactly one entry for every listed name that is not
hidden and whose metadata could be read; an entry whose `Info` fails is left
out of the result, it does not make the read fail. -/
theorem readDir_all_or_listing_error (os : String → List DirEntry × Option String)
    (join : String → String → String)
    (sortSlice : (Entry → Entry → Bool) → List Entry → List Entry) (path : String)
    (hsort : SortsEntries sortSlice) :
    (∀ err, (os path).2 = some err →
      ReadDir os join sortSlice path
        = .error ("failed to read directory " ++ path ++ ": " ++ err)) ∧
    ((os path).2 = none →
      ∃ result, ReadDir os join sortSlice path = .ok result ∧
        result.Perm (collectEntries join path (os path).1) ∧
        (result.map (fun e => e.Name)).Perm
          (((os path).1.filter keptByReadDir).map (fun d => d.Name))) := by
  constructor
  · intro err herr
    simp [ReadDir, herr]
  · intro hok
    obtain ⟨hperm, _⟩ := hsort (collectEntries join path (os path).1)
    refine ⟨_, readDir_ok os join sortSlice path hok, hperm, ?_⟩
    rw [← collectEntries_names join path (os path).1]
    exact hperm.map _

theorem readDir_all_or_listing_error_witness :
    ReadDir demoOs demoJoin demoSort "/x"
        = .error ("failed to read directory " ++ "/x" ++ ": " ++ "no such file or directory") ∧
      ∃ result, ReadDir demoOs demoJoin demoSort "/r" = .ok result ∧
        result.Perm (collectEntries demoJoin "/r" (demoOs "/r").1) ∧
        (result.map (fun e => e.Name)).Perm
          (((demoOs "/r").1.filter keptByReadDir).map (fun d => d.Name)) :=
  ⟨(readDir_all_or_listing_error demoOs demoJoin demoSort "/x" demoSort_contract).1
      "no such file or directory" rfl,
   (readDir_all_or_listing_error demoOs demoJoin demoSort "/r" demoSort_contract).2 rfl⟩

/-! ## The size formatter -/

theorem wrap64_of_range (x : Int) (h1 : -9223372036854775808 ≤ x)
    (h2 : x < 9223372036854775808) : wrap64 x = x := by
  unfold wrap64
  omega

theorem formatSizeLoop_spec (size : Int) (hhi : size < 9223372036854775808) :
    ∀ (k : Nat) (n div : Int) (exp : Nat), n.toNat ≤ k → 1 ≤ n →
      div = 1024 ^ (exp + 1) → n * div ≤ size → size < (n + 1) * div →
      (formatSizeLoop n div exp).1 = 1024 ^ ((formatSizeLoop n div exp).2 + 1) ∧
        (formatSizeLoop n div exp).1 ≤ size ∧
        size < 1024 * (formatSizeLoop n div exp).1 := by
  intro k
  induction k with
  | zero =>
    intro n div exp hk hn
    omega
  | succ k ih =>
    intro n div exp hk hn hdiv hle hlt
    have hdpos : 0 < div := by rw [hdiv]; positivity
    unfold formatSizeLoop
    by_cases hge : 1024 ≤ n
    · simp only [hge, if_true]
      have h0 : (0 : Int) ≤ n := by omega
      rw [Int.tdiv_eq_ediv h0 (by decide)]
      have hq1 : 1024 * (n / 1024) ≤ n := by omega
      have hq2 : n < 1024 * (n / 1024) + 1024 := by omega
      have hq3 : 1 ≤ n / 1024 := by omega
      have hmul : (n / 1024) * (div * 1024) ≤ size := by nlinarith
      have hmul2 : size < (n / 1024 + 1) * (div * 1024) := by nlinarith
      have hnow : div * 1024 < 9223372036854775808 := by nlinarith
      rw [wrap64_of_range (div * 1024) (by nlinarith) hnow]
      exact ih (n / 1024) (div * 1024) (exp + 1) (by omega) hq3
        (by rw [hdiv]; ring) hmul hmul2
    · simp only [hge, if_false]
      refine ⟨hdiv, by nlinarith, by nlinarith⟩

theorem pow1024_exp_le (e : Nat) (h : (1024 : Int) ^ (e + 1) < 9223372036854775808) :
    e ≤ 5 := by
  by_contra hne
  have h7 : 7 ≤ e + 1 := by omega
  have := pow_le_pow_right₀ (by norm_num : (1 : Int) ≤ 1024) h7
  have h2 : (1024 : Int) ^ 7 = 1180591620717411303424 := by norm_num
  omega

/-- C20: for every 64-bit signed `size >= 1024`, the loop of `FormatSize`
(a total function: it terminates) ends with `0 <= exp <= 5`, so the index
into `"KMGTPE"` is in range and `FormatSize` returns; `div = 1024^(exp+1)`
as an integer, so no multiplication wrapped; and `div <= size < 1024 * div`.
For every `size < 1024` the result is the decimal size followed by `" B"`. -/
theorem formatSize_loop_bounds (fmtFloat : Int → Int → String) (size : Int)
    (hlo : -9223372036854775808 ≤ size) (hhi : size < 9223372036854775808) :
    (1024 ≤ size →
      0 ≤ (formatSizeLoop (Int.tdiv size 1024) 1024 0).2 ∧
      (formatSizeLoop (Int.tdiv size 1024) 1024 0).2 ≤ 5 ∧
      (formatSizeLoop (Int.tdiv size 1024) 1024 0).1
        = 1024 ^ ((formatSizeLoop (Int.tdiv size 1024) 1024 0).2 + 1) ∧
      (formatSizeLoop (Int.tdiv size 1024) 1024 0).1 ≤ size ∧
      size < 1024 * (formatSizeLoop (Int.tdiv size 1024) 1024 0).1 ∧
      ∃ c, "KMGTPE".data[(formatSizeLoop (Int.tdiv size 1024) 1024 0).2]? = some c ∧
        FormatSize fmtFloat size =
          some (fmtFloat size (formatSizeLoop (Int.tdiv size 1024) 1024 0).1
            ++ " " ++ String.singleton c ++ "B")) ∧
    (size < 1024 → FormatSize fmtFloat size = some (toString size ++ " B")) := by
  constructor
  · intro hge
    have h0 : (0 : Int) ≤ size := by omega
    have htd : Int.tdiv size 1024 = size / 1024 := Int.tdiv_eq_ediv h0 (by decide)
    obtain ⟨h1, h2, h3⟩ := formatSizeLoop_spec size hhi (size / 1024).toNat (size / 1024)
      1024 0 (le_refl _) (by omega) (by norm_num) (by omega) (by omega)
    rw [← htd] at h1 h2 h3
    have hexp : (formatSizeLoop (Int.tdiv size 1024) 1024 0).2 ≤ 5 := by
      apply pow1024_exp_le
      rw [← h1]
      omega
    refine ⟨Nat.zero_le _, hexp, h1, h2, h3, ?_⟩
    have hlt : (formatSizeLoop (Int.tdiv size 1024) 1024 0).2 < "KMGTPE".data.length := by
      have : "KMGTPE".data.length = 6 := by decide
      omega
    refine ⟨"KMGTPE".data[(formatSizeLoop (Int.tdiv size 1024) 1024 0).2],
      List.getElem?_eq_getElem hlt, ?_⟩
    have hnot : ¬ size < 1024 := by omega
    simp only [FormatSize, hnot, if_false, List.getElem?_eq_getElem hlt, Option.map_some']
  · intro hlt
    simp [FormatSize, hlt]

theorem formatSize_loop_bounds_witness :
    (0 ≤ (formatSizeLoop (Int.tdiv 1536000 1024) 1024 0).2 ∧
      (formatSizeLoop (Int.tdiv 1536000 1024) 1024 0).2 ≤ 5 ∧
      (formatSizeLoop (Int.tdiv 1536000 1024) 1024 0).1
        = 1024 ^ ((formatSizeLoop (Int.tdiv 1536000 1024) 1024 0).2 + 1) ∧
      (formatSizeLoop (Int.tdiv 1536000 1024) 1024 0).1 ≤ 1536000 ∧
      (1536000 : Int) < 1024 * (formatSizeLoop (Int.tdiv 1536000 1024) 1024 0).1 ∧
      ∃ c, "KMGTPE".data[(formatSizeLoop (Int.tdiv 1536000 1024) 1024 0).2]? = some c ∧
        FormatSize (fun _ _ => "1.5") 1536000 =
          some ((fun _ _ => "1.5") (1536000 : Int)
              (formatSizeLoop (Int.tdiv 1536000 1024) 1024 0).1
            ++ " " ++ String.singleton c ++ "B")) ∧
    FormatSize (fun _ _ => "1.5") 512 = some (toString (512 : Int) ++ " B") :=
  ⟨(formatSize_loop_bounds (fun _ _ => "1.5") 1536000 (by decide) (by decide)).1 (by decide),
   (formatSize_loop_bounds (fun _ _ => "1.5") 512 (by decide) (by decide)).2 (by decide)⟩

/-! ## Rendering on small terminals -/

theorem mapM_option_some {α β : Type} (f : α → Option β) :
    ∀ (l : List α), (∀ x, x ∈ l → ∃ y, f x = some y) → ∃ ys, l.mapM f = some ys := by
  intro l
  induction l with
  | nil => intro _; exact ⟨[], rfl⟩
  | cons a rest ih =>
    intro h
    obtain ⟨y, hy⟩ := h a (List.mem_cons_self a rest)
    obtain ⟨ys, hys⟩ := ih (fun x hx => h x (List.mem_cons_of_mem a hx))
    refine ⟨y :: ys, ?_⟩
    rw [List.mapM_cons, hy, hys]
    rfl

/-- The truncation of `RenderBreadcrumb` is in range once the width is at
least 7. -/
theorem renderBreadcrumb_in_range (st : Styles) (pathParts : List String) (width : Int)
    (hw : 7 ≤ width) : ∃ s, RenderBreadcrumb st pathParts width = some s := by
  unfold RenderBreadcrumb
  by_cases h0 : pathParts.length = 0
  · rw [if_pos h0]; exact ⟨_, rfl⟩
  · rw [if_neg h0]
    simp only []
    generalize "/" ++ " > ".intercalate pathParts = b
    by_cases hgt : (b.utf8ByteSize : Int) > width - 4
    · have hin : 0 ≤ (b.utf8ByteSize : Int) - (width - 7) ∧
          (b.utf8ByteSize : Int) - (width - 7) ≤ (b.utf8ByteSize : Int) := by
        constructor <;> omega
      rw [if_pos hgt, strSliceFrom, if_pos hin]
      exact ⟨_, rfl⟩
    · rw [if_neg hgt]; exact ⟨_, rfl⟩

theorem renderItem_in_range (st : Styles) (col : Column) (isActive : Bool) (i : Nat)
    (entry : Entry) : ∃ s, renderItem st col isActive i entry = some s := by
  unfold renderItem
  simp only []
  generalize (if entry.IsDir = true then entry.Name ++ "/" else entry.Name) = t
  by_cases hgt : (t.utf8ByteSize : Int) > columnWidth - 4
  · have hin : 0 ≤ columnWidth - 4 - 3 ∧ columnWidth - 4 - 3 ≤ (t.utf8ByteSize : Int) := by
      unfold columnWidth at hgt ⊢
      constructor <;> omega
    rw [if_pos hgt, strSliceTo, if_pos hin]
    exact ⟨_, rfl⟩
  · rw [if_neg hgt]; exact ⟨_, rfl⟩

/-- The clipping `lines[:height-2]` of `renderColumn` is in range once the
height is at least 2. -/
theorem clipLines_in_range (lines : List String) (height : Int) (hh : 2 ≤ height) :
    ∃ ls, clipLines lines height = some ls := by
  unfold clipLines
  simp only []
  generalize lines ++ List.replicate ((height - 2).toNat - lines.length) "" = padded
  by_cases hgt : (padded.length : Int) > height - 2
  · have hin : 0 ≤ height - 2 ∧ height - 2 ≤ (padded.length : Int) := by
      constructor <;> omega
    rw [if_pos hgt, linesSliceTo, if_pos hin]
    exact ⟨_, rfl⟩
  · rw [if_neg hgt]; exact ⟨_, rfl⟩

theorem columnItems_in_range (st : Styles) (col : Column) (isActive : Bool) :
    ∃ items, columnItems st col isActive = some items := by
  unfold columnItems
  apply mapM_option_some
  intro i hi
  rw [List.mem_range'_1] at hi
  have hlt : i < col.Entries.length := by
    unfold visibleEnd at hi
    split at hi <;> omega
  simp only [indexAt, List.getElem?_eq_getElem hlt, Option.some_bind]
  exact renderItem_in_range st col isActive i _

theorem renderColumn_in_range (st : Styles) (col : Column) (isActive : Bool) (height : Int)
    (hh : 2 ≤ height) : ∃ s, renderColumn st col isActive height = some s := by
  obtain ⟨items, hitems⟩ := columnItems_in_range st col isActive
  obtain ⟨ls, hls⟩ := clipLines_in_range (withScrollMarks st col items) height hh
  unfold renderColumn
  rw [hitems]
  simp only [Option.some_bind]
  rw [hls]
  exact ⟨_, rfl⟩

theorem renderMillerColumns_in_range (st : Styles) (columns : List Column) (active : Nat)
    (height : Int) (hh : 2 ≤ height) :
    ∃ s, RenderMillerColumns st columns active height = some s := by
  have hcols : ∃ cols, (List.range' (visibleRange columns.length active).1
      ((visibleRange columns.length active).2 - (visibleRange columns.length active).1)).mapM
      (fun i => (indexAt columns i).bind (fun col =>
        renderColumn st col (i == active) height)) = some cols := by
    apply mapM_option_some
    intro i hi
    rw [List.mem_range'_1] at hi
    have hlt : i < columns.length := by
      unfold visibleRange maxColumns at hi
      simp only [] at hi
      split at hi
      · split at hi
        · simp only [] at hi; omega
        · simp only [] at hi; omega
      · simp only [] at hi; omega
    simp only [indexAt, List.getElem?_eq_getElem hlt, Option.some_bind]
    exact renderColumn_in_range st _ _ height hh
  obtain ⟨cols, hcols⟩ := hcols
  unfold RenderMillerColumns
  rw [hcols]
  exact ⟨_, rfl⟩

/-- For width at least 7 and height at least 5 no slice of the rendering is
out of range, in any state. -/
theorem viewChecked_in_range (st : Styles) (m : Model) (hw : 7 ≤ m.width)
    (hh : 5 ≤ m.height) : ∃ s, ViewChecked st m = some s := by
  unfold ViewChecked
  split
  · exact ⟨_, rfl⟩
  · split
    · exact ⟨_, rfl⟩
    · split
      · exact ⟨_, rfl⟩
      · obtain ⟨b, hb⟩ := renderBreadcrumb_in_range st m.pathParts m.width hw
        obtain ⟨c, hc⟩ := renderMillerColumns_in_range st m.columns m.activeCol
          (m.height - 3) (by omega)
        rw [hb]
        simp only [Option.some_bind]
        rw [hc]
        exact ⟨_, rfl⟩

/-- C19 fails on the code.  Inside `/r/a` (a reachable state with no error
and breadcrumb `["a"]`) at width 5 the truncation of `RenderBreadcrumb`
slices `"/a"` from byte 4 and is out of range; at startup (a reachable state
with no error) at height 4 the clipping of `renderColumn` is `lines[:-1]` and
is out of range.  In both cases `View` has no result, whatever the styles. -/
theorem view_small_terminal_out_of_range :
    Reachable demoIn ∧ demoIn.err = none ∧ demoIn.pathParts = ["a"] ∧
      (∀ st, RenderBreadcrumb st demoIn.pathParts 5 = none) ∧
      (∀ st, ViewChecked st { demoIn with width := 5, height := 24 } = none) ∧
      Reachable demoInit ∧ demoInit.err = none ∧
      (∀ lines, clipLines lines (4 - 3) = none) ∧
      (∀ st, renderColumn st ⟨"/r", demoRoot, 0, 0⟩ true (4 - 3) = none) ∧
      (∀ st, ViewChecked st { demoInit with width := 80, height := 4 } = none) := by
  refine ⟨Reachable.next rdDemo .descend (Reachable.init rdDemo "/r") rfl, by decide,
    by decide, fun st => rfl, fun st => rfl, Reachable.init rdDemo "/r", by decide,
    ?_, fun st => rfl, fun st => rfl⟩
  intro lines
  have hgt : ((lines ++ List.replicate (((4 : Int) - 3 - 2).toNat - lines.length) "").length
      : Int) > 4 - 3 - 2 := by omega
  have hout : ¬ ((0 : Int) ≤ 4 - 3 - 2 ∧ (4 : Int) - 3 - 2 ≤
      ((lines ++ List.replicate (((4 : Int) - 3 - 2).toNat - lines.length) "").length
        : Int)) := by omega
  rw [clipLines, if_pos hgt, linesSliceTo, if_neg hout]

end Dbtui
